import Mathlib

/-!
Verification of the Visualization Data Preparation Engine of
`mcp-neo4j-visualizer` (chart classifier / data normalizer in
`src/visualizations/chart.ts`, hierarchical grouping and force-directed
layout in `src/visualizations/reactflow.ts` and the graph fallback
layout `calculateForceLayout`).

The JavaScript dynamic values are shallowly embedded as the inductive
type `JSVal`; JS numbers are modelled as exact rationals plus an
explicit `nan` constructor (floating point rounding plays no role in
any property verified here).  A JS expression that throws (property
access on `null`/`undefined`) is modelled by `Option`: `none` is a
thrown `TypeError`.  `Math.sqrt` is modelled as an explicit function
parameter `sqrtQ : ℚ → ℚ`, and `Math.random()` as a stream
`rnd : Nat → ℚ` of values in `[0,1)`; every theorem quantifies over
them (or instantiates them with concrete values consistent with the
real functions at the inputs reached).
-/

/-- Model of a JavaScript runtime value.  `num`/`nan` both have
`typeof === "number"`.  For `str` the payload is the string itself.
Objects and arrays carry their fields / elements. -/
inductive JSVal where
  | num (q : ℚ)
  | nan
  | str (s : String)
  | bool (b : Bool)
  | null
  | undefined
  | obj (fields : List (String × JSVal))
  | arr (elems : List JSVal)

namespace JSVal

/-- JS truthiness: `false`, `0`, `NaN`, `""`, `null`, `undefined` are falsy;
every object/array is truthy. -/
def truthy : JSVal → Bool
  | num q => q != 0
  | nan => false
  | str s => s != ""
  | bool b => b
  | null => false
  | undefined => false
  | obj _ => true
  | arr _ => true

/-- JS `typeof` (note `typeof null === "object"`). -/
def typeof : JSVal → String
  | num _ => "number"
  | nan => "number"
  | str _ => "string"
  | bool _ => "boolean"
  | null => "object"
  | undefined => "undefined"
  | obj _ => "object"
  | arr _ => "object"

def isUndefined : JSVal → Bool
  | undefined => true
  | _ => false

def isNull : JSVal → Bool
  | null => true
  | _ => false

/-- `typeof v === "number" && !isNaN(v)` as used by `getNumericFields`
and `extractChartDataFromObject`. -/
def isFiniteNumber : JSVal → Bool
  | num _ => true
  | _ => false

def isArray : JSVal → Bool
  | arr _ => true
  | _ => false

/-- JS `a || b` specialised to the common `value || default` pattern. -/
def jsOr (a b : JSVal) : JSVal := if a.truthy then a else b

/-- Minimal model of JS `ToNumber` on strings: the empty string is `0`,
optionally signed decimal integer/fraction literals have their exact
value, everything else is `NaN` (`none`).  Exponents, hex literals and
`Infinity` are not modelled; no verified claim evaluates them. -/
def strToNumber (s : String) : Option ℚ :=
  let cs := s.data.dropWhile (fun c => c = ' ')
  let cs := (cs.reverse.dropWhile (fun c => c = ' ')).reverse
  if cs.isEmpty then some 0
  else
    let (sgn, body) : ℚ × List Char :=
      match cs with
      | '-' :: rest => (-1, rest)
      | '+' :: rest => (1, rest)
      | _ => (1, cs)
    let intPart := body.takeWhile Char.isDigit
    let rest := body.dropWhile Char.isDigit
    let digitsVal (l : List Char) : ℕ :=
      l.foldl (fun a c => a * 10 + (c.toNat - '0'.toNat)) 0
    match rest with
    | [] =>
      if intPart.isEmpty then none
      else some (sgn * (digitsVal intPart : ℚ))
    | '.' :: frac =>
      if frac.all Char.isDigit ∧ ¬(intPart.isEmpty ∧ frac.isEmpty) then
        some (sgn * ((digitsVal intPart : ℚ) +
          (digitsVal frac : ℚ) / ((10 : ℚ) ^ frac.length)))
      else none
    | _ => none

/-- JS `ToNumber`; `none` is `NaN`.  Object/array `ToPrimitive` is
modelled as `NaN` (true for plain objects; a nonempty numeric array
would convert via its string form, which no verified claim evaluates). -/
def toNumber : JSVal → Option ℚ
  | num q => some q
  | nan => none
  | str s => strToNumber s
  | bool b => some (if b then 1 else 0)
  | null => some 0
  | undefined => none
  | obj _ => none
  | arr _ => none

/-- JS `String(v)` / template-literal coercion.  Rational numbers are
printed exactly only in the integer case; `String` of a nonempty array
(recursive join) is not modelled — no verified claim evaluates either. -/
def toStr : JSVal → String
  | num q => if q.den = 1 then toString q.num else toString q.num ++ "/" ++ toString q.den
  | nan => "NaN"
  | str s => s
  | bool b => if b then "true" else "false"
  | null => "null"
  | undefined => "undefined"
  | obj _ => "[object Object]"
  | arr _ => ""

/-- Lexicographic order on character lists: the JS string relational
comparison (JS compares UTF-16 code units; on the characters any claim
evaluates this coincides with comparing Unicode scalars). -/
def charListLt : List Char → List Char → Bool
  | [], [] => false
  | [], _ :: _ => true
  | _ :: _, [] => false
  | a :: as, b :: bs =>
    if a < b then true else if b < a then false else charListLt as bs

/-- JS abstract relational comparison `a > b`: string/string compares
lexicographically by code unit; otherwise both sides are converted with
`ToNumber` and any `NaN` makes the comparison `false`. -/
def jsGt (a b : JSVal) : Bool :=
  match a, b with
  | str s, str t => charListLt t.data s.data
  | _, _ =>
    match a.toNumber, b.toNumber with
    | some x, some y => decide (y < x)
    | _, _ => false

/-- Decimal index denoted by a property key (JS array index semantics:
all-digit keys address elements; anything else is an ordinary property). -/
def decIndex (k : String) : Option Nat :=
  if !k.data.isEmpty && k.data.all Char.isDigit then
    some (k.data.foldl (fun a c => a * 10 + (c.toNat - '0'.toNat)) 0)
  else none

/-- Property read `v[k]`; `none` models the thrown `TypeError` when `v`
is `null`/`undefined`.  On objects the first binding wins (JS objects
cannot carry duplicate keys); strings and arrays expose their indices. -/
def getProp : JSVal → String → Option JSVal
  | null, _ => none
  | undefined, _ => none
  | obj fs, k => some (((fs.find? (fun e => e.1 == k)).map Prod.snd).getD undefined)
  | arr es, k =>
    some (match decIndex k with
          | some i => (es.get? i).getD undefined
          | none => undefined)
  | str s, k =>
    some (match decIndex k with
          | some i => ((s.data.get? i).map (fun c => str (String.mk [c]))).getD undefined
          | none => undefined)
  | num _, _ => some undefined
  | nan, _ => some undefined
  | bool _, _ => some undefined

/-- Index read `v[i]` with a numeric literal index (same access rule as
`getProp` at the decimal key). -/
def getIdx : JSVal → Nat → Option JSVal
  | null, _ => none
  | undefined, _ => none
  | obj fs, i =>
    some (((fs.find? (fun e => e.1 == toString i)).map Prod.snd).getD undefined)
  | arr es, i => some ((es.get? i).getD undefined)
  | str s, i =>
    some (((s.data.get? i).map (fun c => str (String.mk [c]))).getD undefined)
  | num _, _ => some undefined
  | nan, _ => some undefined
  | bool _, _ => some undefined

/-- `Object.keys(v)`; throws (`none`) on `null`/`undefined`, yields the
own enumerable keys of objects, the index strings of strings/arrays and
`[]` for other primitives. -/
def keys : JSVal → Option (List String)
  | null => none
  | undefined => none
  | obj fs => some (fs.map Prod.fst)
  | arr es => some ((List.range es.length).map toString)
  | str s => some ((List.range s.length).map toString)
  | num _ => some []
  | nan => some []
  | bool _ => some []

/-- The element list of an array value (used after an
`Array.isArray` test has succeeded). -/
def asArr : JSVal → List JSVal
  | arr es => es
  | _ => []

/-- `Object.entries(v)` for the defended object branch of the
normalizer (only ever reached with a non-null operand). -/
def entries : JSVal → List (String × JSVal)
  | obj fs => fs
  | arr es => es.enum.map (fun e => (toString e.1, e.2))
  | _ => []

end JSVal

/-!
Chart data normalizer and classifier (`src/visualizations/chart.ts`)

`any[]` chart items `{label, value, x?, y?}` are embedded as `CPoint`;
absent `x`/`y` are the value `undefined`, exactly as in JS.
-/

/-- One element of the `chartData` array handed to `determineChartType`:
a JS object `{label, value}`, optionally with `x` and `y`. -/
structure CPoint where
  label : JSVal
  value : JSVal
  x : JSVal := JSVal.undefined
  y : JSVal := JSVal.undefined

namespace Chart

open JSVal

/-- Insertion-ordered counter: `counts[key] = (counts[key] || 0) + 1`.
(The JS engine's reordering of integer-like object keys is not
modelled; no verified claim groups or counts by integer-like keys.) -/
def bumpCount (counts : List (String × Nat)) (k : String) : List (String × Nat) :=
  if counts.any (fun e => e.1 == k) then
    counts.map (fun e => if e.1 == k then (e.1, e.2 + 1) else e)
  else counts ++ [(k, 1)]

/-- The key-filter loop of `getNumericFields`: keep the keys whose value
in the first record is a non-`NaN` number. -/
def filterNumericKeys (firstRecord : JSVal) : List String → Option (List String)
  | [] => some []
  | k :: rest =>
    match firstRecord.getProp k with
    | none => none
    | some v =>
      match filterNumericKeys firstRecord rest with
      | none => none
      | some tail => some (if v.isFiniteNumber then k :: tail else tail)

/-- `getNumericFields(records)`: keys of the first record whose value in
that record is a non-`NaN` number.  Throws (`none`) when the first
record is `null`/`undefined` (`Object.keys` throws there). -/
def getNumericFields (records : List JSVal) : Option (List String) :=
  if records.isEmpty then some []
  else
    match (records.head?.getD JSVal.undefined).keys with
    | none => none
    | some ks => filterNumericKeys (records.head?.getD JSVal.undefined) ks

/-- `record.name || record.title || record.id || `Record ${index+1}``
with JS short-circuit evaluation (later properties are not read once a
truthy one is found). -/
def recordLabel (r : JSVal) (index : Nat) : Option JSVal :=
  match r.getProp "name" with
  | none => none
  | some n =>
    if n.truthy then some n
    else
      match r.getProp "title" with
      | none => none
      | some t =>
        if t.truthy then some t
        else
          match r.getProp "id" with
          | none => none
          | some i =>
            if i.truthy then some i
            else some (JSVal.str ("Record " ++ toString (index + 1)))

/-- The `records.map((record, index) => ({label, value: record[field] || 0}))`
body, over the record list with indices. -/
def mapRecords (field : String) : List (Nat × JSVal) → Option (List CPoint)
  | [] => some []
  | (i, r) :: rest =>
    match recordLabel r i with
    | none => none
    | some lbl =>
      match r.getProp field with
      | none => none
      | some v =>
        match mapRecords field rest with
        | none => none
        | some tail =>
          some ({ label := lbl, value := v.jsOr (JSVal.num 0) } :: tail)

/-- The counting loop of `createFrequencyData`:
`counts[String(record[field] || 'Unknown')]++`. -/
def countByField (field : String) :
    List JSVal → List (String × Nat) → Option (List (String × Nat))
  | [], acc => some acc
  | r :: rest, acc =>
    match r.getProp field with
    | none => none
    | some v =>
      countByField field rest (bumpCount acc (v.jsOr (JSVal.str "Unknown")).toStr)

/-- `createFrequencyData(records, field)`:
`String(record[field] || 'Unknown')` frequency counts. -/
def createFrequencyData (records : List JSVal) (field : String) :
    Option (List CPoint) :=
  match countByField field records [] with
  | none => none
  | some counts =>
    some (counts.map (fun e => { label := JSVal.str e.1, value := JSVal.num e.2 }))

/-- `extractChartDataFromRecords`: choose the first numeric field of the
first record and map every record to a point (`value: record[field] || 0`,
then a filter dropping `null`/`undefined` values); with no numeric field,
frequency-count the first key of the first record. -/
def extractChartDataFromRecords (records : List JSVal) : Option (List CPoint) :=
  if records.isEmpty then some []
  else
    match getNumericFields records with
    | none => none
    | some numericFields =>
      match numericFields.head? with
      | some field =>
        match mapRecords field records.enum with
        | none => none
        | some mapped =>
          some (mapped.filter (fun item => !item.value.isNull && !item.value.isUndefined))
      | none =>
        match (records.head?.getD JSVal.undefined).keys with
        | none => none
        | some ks =>
          match ks.head? with
          | some firstField => createFrequencyData records firstField
          | none => some []

/-- The counting loop of `extractChartDataFromNodes`:
`labelCounts[node.labels[0] || 'Unknown']++`; `node.labels[0]` throws
when `labels` is absent (`undefined[0]`) or the node is `null`. -/
def countNodeLabels : List JSVal → List (String × Nat) → Option (List (String × Nat))
  | [], acc => some acc
  | n :: rest, acc =>
    match n.getProp "labels" with
    | none => none
    | some labels =>
      match labels.getIdx 0 with
      | none => none
      | some first =>
        countNodeLabels rest (bumpCount acc (first.jsOr (JSVal.str "Unknown")).toStr)

/-- `extractChartDataFromNodes`: count nodes by first label. -/
def extractChartDataFromNodes (nodes : List JSVal) : Option (List CPoint) :=
  match countNodeLabels nodes [] with
  | none => none
  | some counts =>
    some (counts.map (fun e => { label := JSVal.str e.1, value := JSVal.num e.2 }))

/-- The counting loop of `extractChartDataFromRelationships`:
`typeCounts[rel.type || 'Unknown']++`. -/
def countRelTypes : List JSVal → List (String × Nat) → Option (List (String × Nat))
  | [], acc => some acc
  | r :: rest, acc =>
    match r.getProp "type" with
    | none => none
    | some t =>
      countRelTypes rest (bumpCount acc (t.jsOr (JSVal.str "Unknown")).toStr)

/-- `extractChartDataFromRelationships`: count by `rel.type || 'Unknown'`. -/
def extractChartDataFromRelationships (rels : List JSVal) : Option (List CPoint) :=
  match countRelTypes rels [] with
  | none => none
  | some counts =>
    some (counts.map (fun e => { label := JSVal.str e.1, value := JSVal.num e.2 }))

/-- `item.name || item.label || item.title || `Item ${index+1}`` with JS
short-circuit evaluation. -/
def arrayItemLabel (item : JSVal) (index : Nat) : Option JSVal :=
  match item.getProp "name" with
  | none => none
  | some n =>
    if n.truthy then some n
    else
      match item.getProp "label" with
      | none => none
      | some l =>
        if l.truthy then some l
        else
          match item.getProp "title" with
          | none => none
          | some t =>
            if t.truthy then some t
            else some (JSVal.str ("Item " ++ toString (index + 1)))

/-- The `data.map((item, index) => ...)` body of the array branch
(`value: item[field] || 0`, and no trailing filter). -/
def mapArrayItems (field : String) : List (Nat × JSVal) → Option (List CPoint)
  | [] => some []
  | (i, item) :: rest =>
    match arrayItemLabel item i with
    | none => none
    | some lbl =>
      match item.getProp field with
      | none => none
      | some v =>
        match mapArrayItems field rest with
        | none => none
        | some tail =>
          some ({ label := lbl, value := v.jsOr (JSVal.num 0) } :: tail)

/-- Frequency chart for an array of primitives: `String(item)` counts. -/
def freqOfPrimitives (elems : List JSVal) : List CPoint :=
  (elems.foldl (fun acc item => bumpCount acc item.toStr) []).map
    (fun e => { label := JSVal.str e.1, value := JSVal.num e.2 })

/-- The two trailing checks of `extractChartDataFromArray` reached when
the object branch is skipped or finds no numeric field: frequency-count
string/number elements, else return `[]`. -/
def arrayPrimitiveFallback (first : JSVal) (elems : List JSVal) : List CPoint :=
  if first.typeof == "string" || first.typeof == "number" then freqOfPrimitives elems
  else []

/-- `extractChartDataFromArray`: objects with a numeric field map to
points; otherwise string/number elements are frequency-counted;
otherwise `[]`. -/
def extractChartDataFromArray (elems : List JSVal) : Option (List CPoint) :=
  if elems.isEmpty then some []
  else
    let first := elems.head?.getD JSVal.undefined
    if first.typeof == "object" then
      match getNumericFields elems with
      | none => none
      | some numericFields =>
        match numericFields.head? with
        | some field => mapArrayItems field elems.enum
        | none => some (arrayPrimitiveFallback first elems)
    else some (arrayPrimitiveFallback first elems)

/-- `extractChartDataFromObject`: numeric own properties become points;
no numeric property (or a non-object) yields `[]`. -/
def extractChartDataFromObject (data : JSVal) : List CPoint :=
  if !data.truthy || data.typeof != "object" then []
  else
    let numericEntries := data.entries.filter (fun e => e.2.isFiniteNumber)
    if !numericEntries.isEmpty then
      numericEntries.map (fun e => { label := JSVal.str e.1, value := e.2 })
    else []

/-- `processChartData`: shape dispatch `records` / `nodes` /
`relationships` / direct array / plain object.  The very first
`data.records` read throws on `null`/`undefined` input. -/
def processChartData (data : JSVal) : Option (List CPoint) :=
  match data.getProp "records" with
  | none => none
  | some recs =>
    if recs.isArray then extractChartDataFromRecords recs.asArr
    else
      match data.getProp "nodes" with
      | none => none
      | some nodes =>
        if nodes.isArray then extractChartDataFromNodes nodes.asArr
        else
          match data.getProp "relationships" with
          | none => none
          | some rels =>
            if rels.isArray then extractChartDataFromRelationships rels.asArr
            else if data.isArray then extractChartDataFromArray data.asArr
            else some (extractChartDataFromObject data)

/-- Binary `Math.max` on non-`NaN` numbers. -/
def qMax (a b : ℚ) : ℚ := if a < b then b else a

/-- Binary `Math.min` on non-`NaN` numbers. -/
def qMin (a b : ℚ) : ℚ := if b < a then b else a

/-- `Math.max(...values)` (`none` = `NaN`); only evaluated on nonempty
lists in the classifier (the `[]` case of JS would be `-Infinity`). -/
def jsMathMax : List JSVal → Option ℚ
  | [] => none
  | v :: rest => rest.foldl (fun acc w =>
      match acc, w.toNumber with
      | some a, some b => some (qMax a b)
      | _, _ => none) v.toNumber

/-- `Math.min(...values)` (`none` = `NaN`). -/
def jsMathMin : List JSVal → Option ℚ
  | [] => none
  | v :: rest => rest.foldl (fun acc w =>
      match acc, w.toNumber with
      | some a, some b => some (qMin a b)
      | _, _ => none) v.toNumber

/-- `(Math.max(...values) - Math.min(...values)) > 10` as evaluated
after the `isAllNumeric &&` short-circuit. -/
def wideRange (values : List JSVal) : Bool :=
  match jsMathMax values, jsMathMin values with
  | some mx, some mn => decide (mx - mn > 10)
  | _, _ => false

/-- `d.x !== undefined && d.y !== undefined` for one point. -/
def hasXYPoint (d : CPoint) : Bool := !d.x.isUndefined && !d.y.isUndefined

/-- `every((d, i) => i === 0 || d.label > chartData[i-1].label)`:
each label strictly greater than its predecessor. -/
def labelsIncreasing (chartData : List CPoint) : Bool :=
  (chartData.zip (chartData.drop 1)).all (fun pc => JSVal.jsGt pc.2.label pc.1.label)

/-- `determineChartType` (chart.ts:189-220): the scatter / histogram /
pie / line / bar decision cascade, first matching rule wins. -/
def determineChartType (chartData : List CPoint) : String :=
  if chartData.isEmpty then "bar"
  else
    let hasXY := chartData.any hasXYPoint
    if hasXY then "scatter"
    else
      let values := chartData.map CPoint.value
      let isAllNumeric := values.all (fun v => v.typeof == "number")
      let hasWideRange := isAllNumeric && wideRange values
      if isAllNumeric && hasWideRange && decide (chartData.length > 20) then "histogram"
      else if decide (chartData.length ≤ 10) && chartData.all (fun d => JSVal.jsGt d.value (JSVal.num 0)) then "pie"
      else
        let hasSequentialLabels := decide (chartData.length > 3) && labelsIncreasing chartData
        if hasSequentialLabels then "line"
        else "bar"

/-- Result of `ChartVisualization.generate`: either the "empty chart"
page or a typed chart built from the processed points; the supplied
`width`/`height` flow straight into the rendered output. -/
inductive GenOut where
  | emptyViz (width height : ℚ)
  | chart (chartType : String) (points : List CPoint) (width height : ℚ)

/-- `ChartVisualization.generate` data path (chart.ts:5-35): process the
data, branch on emptiness, classify; no configuration validation of any
kind is performed. -/
def generate (data : JSVal) (width height : ℚ) : Option GenOut :=
  match processChartData data with
  | none => none
  | some chartData =>
    if chartData.isEmpty then some (GenOut.emptyViz width height)
    else some (GenOut.chart (determineChartType chartData) chartData width height)

end Chart


/-!
Classifier theorems (claims C3, C4)
-/

namespace Chart

/-- A `{label, value}` point with a string label and numeric value, as
produced by the normalizer. -/
def samplePt (l : String) (v : ℚ) : CPoint :=
  { label := JSVal.str l, value := JSVal.num v }

/-- 21 all-numeric points whose values span a range of 11. -/
def exWide : List CPoint :=
  samplePt "a" 0 :: samplePt "b" 11 :: List.replicate 19 (samplePt "c" 5)

/-- The same 21 points with the values compressed to a range of 5. -/
def exNarrow : List CPoint :=
  samplePt "a" 0 :: samplePt "b" 5 :: List.replicate 19 (samplePt "c" 5)

theorem pie_line_bar_ne_histogram (c1 c2 : Prop) [Decidable c1] [Decidable c2] :
    (if c1 then "pie" else if c2 then "line" else "bar") ≠ "histogram" := by
  split
  · decide
  · split
    · decide
    · decide

end Chart

/-- C3: the classifier returns `histogram` exactly when every value has
JS type number, `Math.max − Math.min` of the values exceeds 10, there
are more than 20 points, and no point carries both `x` and `y` distinct
from `undefined` (for such points scatter wins); in particular 21
numeric points spanning a range of 11 classify as `histogram`, while
the same 21 points spanning a range of 5 do not. -/
theorem C3_histogram_rule :
    (∀ pts : List CPoint,
      Chart.determineChartType pts = "histogram" ↔
        ((pts.map CPoint.value).all (fun v => v.typeof == "number") = true ∧
         Chart.wideRange (pts.map CPoint.value) = true ∧
         20 < pts.length ∧
         pts.all (fun p => p.x.isUndefined || p.y.isUndefined) = true)) ∧
    Chart.determineChartType Chart.exWide = "histogram" ∧
    Chart.determineChartType Chart.exNarrow ≠ "histogram" := by
  refine ⟨?_, by set_option maxRecDepth 4000 in with_unfolding_all decide,
             by set_option maxRecDepth 4000 in with_unfolding_all decide⟩
  intro pts
  simp only [Chart.determineChartType]
  by_cases hemp : pts.isEmpty
  · simp only [hemp, if_true]
    constructor
    · intro h; exact absurd h (by decide)
    · rintro ⟨-, -, hlen, -⟩
      rw [List.isEmpty_iff] at hemp
      rw [hemp] at hlen
      simp at hlen
  · rw [Bool.not_eq_true] at hemp
    simp only [hemp, Bool.false_eq_true, if_false]
    by_cases hxy : pts.any Chart.hasXYPoint
    · simp only [hxy, if_true]
      constructor
      · intro h; exact absurd h (by decide)
      · rintro ⟨-, -, -, hall⟩
        rcases List.any_eq_true.mp hxy with ⟨p, hp, hpt⟩
        have h4 := List.all_eq_true.mp hall p hp
        revert hpt h4
        unfold Chart.hasXYPoint
        cases p.x.isUndefined <;> cases p.y.isUndefined <;> simp
    · rw [Bool.not_eq_true] at hxy
      simp only [hxy, Bool.false_eq_true, if_false]
      have hall4 : pts.all (fun p => p.x.isUndefined || p.y.isUndefined) = true := by
        rw [List.all_eq_true]
        intro p hp
        have h := List.any_eq_false.mp hxy p hp
        revert h
        unfold Chart.hasXYPoint
        cases p.x.isUndefined <;> cases p.y.isUndefined <;> simp
      cases hA : (pts.map CPoint.value).all (fun v => v.typeof == "number") <;>
        cases hW : Chart.wideRange (pts.map CPoint.value) <;>
        cases hD : decide (pts.length > 20) <;>
        simp only [Bool.false_and, Bool.and_false, Bool.true_and, Bool.and_true,
          Bool.and_self, Bool.false_eq_true, if_false, if_true]
      · exact iff_of_false (Chart.pie_line_bar_ne_histogram _ _)
          (by rintro ⟨h1, -, -, -⟩; exact absurd h1 (by decide))
      · exact iff_of_false (Chart.pie_line_bar_ne_histogram _ _)
          (by rintro ⟨h1, -, -, -⟩; exact absurd h1 (by decide))
      · exact iff_of_false (Chart.pie_line_bar_ne_histogram _ _)
          (by rintro ⟨h1, -, -, -⟩; exact absurd h1 (by decide))
      · exact iff_of_false (Chart.pie_line_bar_ne_histogram _ _)
          (by rintro ⟨h1, -, -, -⟩; exact absurd h1 (by decide))
      · exact iff_of_false (Chart.pie_line_bar_ne_histogram _ _)
          (by rintro ⟨-, h2, -, -⟩; exact absurd h2 (by decide))
      · exact iff_of_false (Chart.pie_line_bar_ne_histogram _ _)
          (by rintro ⟨-, h2, -, -⟩; exact absurd h2 (by decide))
      · exact iff_of_false (Chart.pie_line_bar_ne_histogram _ _)
          (by rintro ⟨-, -, h3, -⟩; exact absurd h3 (of_decide_eq_false hD))
      · exact iff_of_true (by trivial) ⟨by trivial, by trivial, of_decide_eq_true hD, hall4⟩

/-- Witness for C3: the histogram biconditional instantiated at the
concrete 21-point, range-11 input. -/
theorem C3_histogram_rule_witness :
    Chart.determineChartType Chart.exWide = "histogram" :=
  (C3_histogram_rule.1 Chart.exWide).mpr
    (by set_option maxRecDepth 4000 in with_unfolding_all decide)

/-- C4: whenever some point carries both `x` and `y` (both distinct
from `undefined`), the classifier returns `scatter`; rule 1 precedes
the pie rule. -/
theorem C4_scatter_priority (pts : List CPoint)
    (h : pts.any Chart.hasXYPoint = true) :
    Chart.determineChartType pts = "scatter" := by
  have hne : pts.isEmpty = false := by
    cases pts with
    | nil => simp at h
    | cons a l => rfl
  simp [Chart.determineChartType, hne, h]

/-- Witness for C4: a single point that also satisfies the pie rule
(≤ 10 points, strictly positive value) but carries `x` and `y`, and is
classified `scatter`. -/
theorem C4_scatter_priority_witness :
    ([({ label := JSVal.str "a", value := JSVal.num 1,
         x := JSVal.num 2, y := JSVal.num 3 } : CPoint)].length ≤ 10 ∧
     [({ label := JSVal.str "a", value := JSVal.num 1,
         x := JSVal.num 2, y := JSVal.num 3 } : CPoint)].all
       (fun d => JSVal.jsGt d.value (JSVal.num 0)) = true) ∧
    Chart.determineChartType
      [({ label := JSVal.str "a", value := JSVal.num 1,
          x := JSVal.num 2, y := JSVal.num 3 } : CPoint)] = "scatter" :=
  ⟨by decide,
   C4_scatter_priority
     [{ label := JSVal.str "a", value := JSVal.num 1,
        x := JSVal.num 2, y := JSVal.num 3 }] (by decide)⟩


/-!
Normalizer theorems (claims C5, C8, C9)
-/

namespace Chart

/-- `value || 0` is never `null`/`undefined`: `null`/`undefined` are
falsy, so `||` replaces them by `0`. -/
theorem jsOr_zero_not_nullish (v : JSVal) :
    (!(v.jsOr (JSVal.num 0)).isNull && !(v.jsOr (JSVal.num 0)).isUndefined) = true := by
  unfold JSVal.jsOr
  cases hv : v.truthy with
  | false => simp [hv, JSVal.isNull, JSVal.isUndefined]
  | true =>
    simp only [hv, if_true]
    cases v <;> simp_all [JSVal.truthy, JSVal.isNull, JSVal.isUndefined]

/-- `mapRecords` emits exactly one point per record, each with
`value = record[field] || 0`. -/
theorem mapRecords_spec (field : String) :
    ∀ (l : List (Nat × JSVal)) (out : List CPoint),
      mapRecords field l = some out →
      out.length = l.length ∧
      ∀ item ∈ out, ∃ v : JSVal, item.value = JSVal.jsOr v (JSVal.num 0) := by
  intro l
  induction l with
  | nil =>
    intro out h
    simp only [mapRecords, Option.some.injEq] at h
    subst h
    exact ⟨rfl, by simp⟩
  | cons p rest ih =>
    intro out h
    obtain ⟨i, r⟩ := p
    simp only [mapRecords] at h
    cases h1 : recordLabel r i with
    | none => rw [h1] at h; exact Option.noConfusion h
    | some lbl =>
      rw [h1] at h
      cases h2 : r.getProp field with
      | none => rw [h2] at h; exact Option.noConfusion h
      | some v =>
        rw [h2] at h
        cases h3 : mapRecords field rest with
        | none => rw [h3] at h; exact Option.noConfusion h
        | some tail =>
          rw [h3] at h
          simp only [Option.some.injEq] at h
          subst h
          obtain ⟨hlen, hmem⟩ := ih tail h3
          refine ⟨by simp [hlen], ?_⟩
          intro item hitem
          rcases List.mem_cons.mp hitem with hh | hh
          · exact ⟨v, by rw [hh]⟩
          · exact hmem item hh

/-- Two records sharing the numeric field `f`; the second holds `null`
there.  The spec predicts the second is dropped; the code emits it with
value `0`. -/
def recsEx : List JSVal :=
  [JSVal.obj [("f", JSVal.num 5), ("name", JSVal.str "n1")],
   JSVal.obj [("f", JSVal.null), ("name", JSVal.str "n2")]]

end Chart

/-- Counterexample to C5 as stated: with a numeric field `f` present in
the first record and `f = null` in the second, **both** records produce
points (values `[5, 0]`), so the output length is 2 while the number of
records whose `f` is neither null nor undefined is 1 — the nullish
record is not dropped. -/
theorem C5_counterexample :
    (Chart.extractChartDataFromRecords Chart.recsEx).map List.length = some 2 ∧
    (Chart.recsEx.filter (fun r =>
       !((r.getProp "f").getD JSVal.undefined).isNull &&
       !((r.getProp "f").getD JSVal.undefined).isUndefined)).length = 1 ∧
    ((Chart.extractChartDataFromRecords Chart.recsEx).getD []).map
      (fun p => p.value.toNumber) = [some 5, some 0] := by
  refine ⟨by with_unfolding_all rfl, by with_unfolding_all rfl,
          by with_unfolding_all rfl⟩

/-- C5 amended: in the numeric-field branch of the records normalizer no
record is ever dropped — `record[field] || 0` turns nullish values into
`0`, so the trailing null/undefined filter keeps every point and the
output has exactly one point per record. -/
theorem C5_no_record_dropped (records : List JSVal) (nf : List String)
    (out : List CPoint)
    (hnf : Chart.getNumericFields records = some nf) (hne : nf ≠ [])
    (h : Chart.extractChartDataFromRecords records = some out) :
    out.length = records.length := by
  cases records with
  | nil =>
    simp only [Chart.extractChartDataFromRecords, List.isEmpty_nil, if_true,
      Option.some.injEq] at h
    subst h; rfl
  | cons r rest =>
    simp only [Chart.extractChartDataFromRecords, List.isEmpty_cons,
      Bool.false_eq_true, if_false, hnf] at h
    cases hh : nf.head? with
    | none => exact absurd (List.head?_eq_none_iff.mp hh) hne
    | some field =>
      simp only [hh] at h
      cases hm : Chart.mapRecords field (r :: rest).enum with
      | none => rw [hm] at h; exact Option.noConfusion h
      | some mapped =>
        rw [hm] at h
        simp only [Option.some.injEq] at h
        obtain ⟨hlen, hmem⟩ := Chart.mapRecords_spec field _ _ hm
        have hfilter : mapped.filter
            (fun item => !item.value.isNull && !item.value.isUndefined) = mapped := by
          rw [List.filter_eq_self]
          intro item hitem
          obtain ⟨v, hv⟩ := hmem item hitem
          rw [hv]
          exact Chart.jsOr_zero_not_nullish v
        rw [hfilter] at h
        subst h
        rw [hlen, List.enum_length]

/-- Witness for C5's amended theorem at the concrete two-record input. -/
theorem C5_no_record_dropped_witness :
    ∃ out, Chart.extractChartDataFromRecords Chart.recsEx = some out ∧
      out.length = Chart.recsEx.length :=
  ⟨[{ label := JSVal.str "n1", value := JSVal.num 5 },
    { label := JSVal.str "n2", value := JSVal.num 0 }],
   by with_unfolding_all rfl,
   C5_no_record_dropped Chart.recsEx ["f"] _
     (by with_unfolding_all rfl) (by simp)
     (by with_unfolding_all rfl)⟩

namespace Chart

/-- A JS primitive other than `null` (numbers — `NaN` included —
strings, booleans, and `undefined`). -/
def isNonNullPrimitive : JSVal → Bool
  | JSVal.num _ => true
  | JSVal.nan => true
  | JSVal.str _ => true
  | JSVal.bool _ => true
  | JSVal.undefined => true
  | _ => false

/-- The property names probed by the dispatcher are not decimal
indices, so on an array input they read as `undefined` and the direct
array branch is taken. -/
theorem processChartData_arr (elems : List JSVal) :
    Chart.processChartData (JSVal.arr elems) =
      Chart.extractChartDataFromArray elems := by
  simp [Chart.processChartData, JSVal.getProp, JSVal.isArray, JSVal.asArr,
    show JSVal.decIndex "records" = none from rfl,
    show JSVal.decIndex "nodes" = none from rfl,
    show JSVal.decIndex "relationships" = none from rfl]

end Chart

/-- Counterexample to C8 as stated: normalizing the input `null` throws
(the very first `data.records` property read is a `TypeError`), so the
normalizer does **not** return a point sequence for every input value. -/
theorem C8_counterexample : Chart.processChartData JSVal.null = none := rfl

/-- C8 amended: the normalizer returns without throwing for every
number/string/boolean input (yielding `[]`), for every array whose
elements are non-null primitives, and for `{records: []}` (yielding
`[]`) — but property access on `null`/`undefined` input, or a `null`
first element (where `Object.keys` is applied), throws. -/
theorem C8_graceful_on_shaped_inputs :
    (∀ v : JSVal,
       (v.typeof = "number" ∨ v.typeof = "string" ∨ v.typeof = "boolean") →
       Chart.processChartData v = some []) ∧
    (∀ elems : List JSVal,
       (∀ e ∈ elems, Chart.isNonNullPrimitive e = true) →
       (Chart.processChartData (JSVal.arr elems)).isSome = true) ∧
    Chart.processChartData (JSVal.obj [("records", JSVal.arr [])]) = some [] := by
  refine ⟨?_, ?_, rfl⟩
  · intro v hv
    cases v <;>
      simp [Chart.processChartData, Chart.extractChartDataFromObject,
        JSVal.getProp, JSVal.isArray, JSVal.typeof, JSVal.truthy,
        show JSVal.decIndex "records" = none from rfl,
        show JSVal.decIndex "nodes" = none from rfl,
        show JSVal.decIndex "relationships" = none from rfl] <;>
      simp [JSVal.typeof] at hv
  · intro elems hall
    cases elems with
    | nil => rfl
    | cons first rest =>
      rw [Chart.processChartData_arr]
      have hfirst : Chart.isNonNullPrimitive first = true :=
        hall first (List.mem_cons_self first rest)
      have hobj : (first.typeof == "object") = false := by
        cases first <;> simp_all [JSVal.typeof, Chart.isNonNullPrimitive]
      simp [Chart.extractChartDataFromArray, hobj]

/-- Witness for C8's amended theorem: a two-element boolean array is
normalized without throwing. -/
theorem C8_graceful_on_shaped_inputs_witness :
    (Chart.processChartData
      (JSVal.arr [JSVal.bool true, JSVal.bool false])).isSome = true :=
  C8_graceful_on_shaped_inputs.2.1 [JSVal.bool true, JSVal.bool false]
    (by intro e he; fin_cases he <;> rfl)

/-- Counterexample to C9 as stated: `ChartVisualization.generate`
supplied with a zero width and a negative height produces its output
normally (the dimensions flow straight into the rendered page); no
error is raised before producing output. -/
theorem C9_counterexample :
    Chart.generate (JSVal.obj [("records", JSVal.arr [])]) 0 (-100) =
      some (Chart.GenOut.emptyViz 0 (-100)) := rfl

/-- C9 amended: the generator performs no configuration validation —
whether it fails is decided by the data alone (a thrown data-shape
`TypeError`), never by `width`/`height`, so invalid or negative
dimensions are silently accepted. -/
theorem C9_no_config_validation (data : JSVal) (width height : ℚ) :
    Chart.generate data width height = none ↔
      Chart.processChartData data = none := by
  unfold Chart.generate
  cases h : Chart.processChartData data with
  | none => simp
  | some chartData =>
    constructor
    · intro hg
      by_cases he : chartData.isEmpty <;> simp [he] at hg
    · intro hn; exact Option.noConfusion hn

/-- Witness for C9's amended theorem: at the `null` input the generator
fails for the data reason, independently of the (invalid) dimensions. -/
theorem C9_no_config_validation_witness :
    Chart.generate JSVal.null 0 (-100) = none :=
  (C9_no_config_validation JSVal.null 0 (-100)).mpr rfl

/-!
Hierarchical grouping engine
(`processHierarchicalGrouping`, reactflow.ts:135-206)

ReactFlow node objects are embedded as `RNode`, flattening the fields
the algorithm touches (`data.properties` → `props`, `data.isGroup` /
`data.childCount`, `position`, `style.width` / `style.height`,
`parentNode`, `extent`).  Absent optional fields are `none`.
-/

/-- A ReactFlow node as consumed and produced by the grouping engine. -/
structure RNode where
  id : String
  props : List (String × JSVal)
  parentNode : Option String := none
  isGroup : Bool := false
  childCount : Option Nat := none
  posX : ℚ := 0
  posY : ℚ := 0
  width : Option ℚ := none
  height : Option ℚ := none
  extent : Option String := none

/-- A ReactFlow edge (passed through grouping untouched). -/
structure REdge where
  id : String
  source : String
  target : String

namespace Group

/-- `node.data.properties[groupProperty]` (`undefined` when absent). -/
def getPropVal (props : List (String × JSVal)) (k : String) : JSVal :=
  ((props.find? (fun e => e.1 == k)).map Prod.snd).getD JSVal.undefined

/-- `if (!groups[groupValue]) groups[groupValue] = []; groups[groupValue].push(node)`
on an insertion-ordered association list. -/
def insertGroup (gs : List (String × List RNode)) (k : String) (n : RNode) :
    List (String × List RNode) :=
  if gs.any (fun e => e.1 == k) then
    gs.map (fun e => if e.1 == k then (e.1, e.2 ++ [n]) else e)
  else gs ++ [(k, [n])]

/-- The first `nodes.forEach` of `processHierarchicalGrouping`: partition
by the truthiness of `node.data.properties[groupProperty]`; the object
key is the value's string coercion. -/
def buildGroupsAux (gp : String) :
    List RNode → List (String × List RNode) × List RNode →
    List (String × List RNode) × List RNode
  | [], acc => acc
  | node :: rest, acc =>
    let groupValue := getPropVal node.props gp
    if groupValue.truthy then
      buildGroupsAux gp rest (insertGroup acc.1 groupValue.toStr node, acc.2)
    else
      buildGroupsAux gp rest (acc.1, acc.2 ++ [node])

/-- Partition of the node list into `groups` and `ungroupedNodes`. -/
def buildGroups (nodes : List RNode) (gp : String) :
    List (String × List RNode) × List RNode :=
  buildGroupsAux gp nodes ([], [])

/-- The synthesized parent node for a multi-member group
(`id = "group-" + groupValue`, `childCount`, fixed width 300, height
`Math.max(100, n*60 + 40)`). -/
def mkParent (gp gv : String) (members : List RNode) : RNode :=
  { id := "group-" ++ gv,
    props := [(gp, JSVal.str gv)],
    parentNode := none,
    isGroup := true,
    childCount := some members.length,
    posX := 0, posY := 0,
    width := some 300,
    height := some (Chart.qMax 100 ((members.length : ℚ) * 60 + 40)),
    extent := none }

/-- A grouped child: the original node re-parented under the group, with
the in-container position `x = 20, y = 40 + index*60` and size 260×50. -/
def mkChild (parentId : String) (index : Nat) (n : RNode) : RNode :=
  { n with
    parentNode := some parentId,
    extent := some "parent",
    posX := 20,
    posY := 40 + (index : ℚ) * 60,
    width := some 260,
    height := some 50 }

/-- The children pushed for one multi-member group entry, in member
order with their indices. -/
def childrenFor (gv : String) (members : List RNode) : List RNode :=
  members.enum.map (fun p => mkChild ("group-" ++ gv) p.1 p.2)

/-- The `Object.entries(groups).forEach` of `processHierarchicalGrouping`:
multi-member groups push a parent and re-parented children; singleton
groups push their member back to `ungroupedNodes`. -/
def phase2 (gp : String) :
    List (String × List RNode) → List RNode × List RNode × List RNode →
    List RNode × List RNode × List RNode
  | [], acc => acc
  | e :: rest, acc =>
    if e.2.length > 1 then
      phase2 gp rest
        (acc.1 ++ [mkParent gp e.1 e.2], acc.2.1 ++ childrenFor e.1 e.2, acc.2.2)
    else
      phase2 gp rest (acc.1, acc.2.1, acc.2.2 ++ e.2)

/-- `processHierarchicalGrouping(nodes, edges, groupProperty)`: the
result node list is `[...parentNodes, ...childNodes, ...ungroupedNodes]`;
edges pass through unchanged. -/
def processHierarchicalGrouping (nodes : List RNode) (edges : List REdge)
    (gp : String) : List RNode × List REdge :=
  let built := buildGroups nodes gp
  let res := phase2 gp built.1 ([], [], built.2)
  (res.1 ++ res.2.1 ++ res.2.2, edges)

/-- Parents emitted by `phase2`, in group-entry order. -/
def parentsOf (gp : String) : List (String × List RNode) → List RNode
  | [] => []
  | e :: rest =>
    (if e.2.length > 1 then [mkParent gp e.1 e.2] else []) ++ parentsOf gp rest

/-- Children emitted by `phase2`, grouped by entry in order. -/
def childrenOf : List (String × List RNode) → List RNode
  | [] => []
  | e :: rest =>
    (if e.2.length > 1 then childrenFor e.1 e.2 else []) ++ childrenOf rest

/-- Singleton members pushed back to `ungroupedNodes` by `phase2`. -/
def singlesOf : List (String × List RNode) → List RNode
  | [] => []
  | e :: rest => (if e.2.length > 1 then [] else e.2) ++ singlesOf rest

theorem phase2_eq (gp : String) :
    ∀ (l : List (String × List RNode)) (acc : List RNode × List RNode × List RNode),
      phase2 gp l acc =
        (acc.1 ++ parentsOf gp l, acc.2.1 ++ childrenOf l, acc.2.2 ++ singlesOf l) := by
  intro l
  induction l with
  | nil => intro acc; simp [phase2, parentsOf, childrenOf, singlesOf]
  | cons e rest ih =>
    intro acc
    by_cases h : e.2.length > 1 <;>
      simp [phase2, parentsOf, childrenOf, singlesOf, h, ih]

theorem processHierarchicalGrouping_nodes (nodes : List RNode)
    (edges : List REdge) (gp : String) :
    (processHierarchicalGrouping nodes edges gp).1 =
      parentsOf gp (buildGroups nodes gp).1 ++
      childrenOf (buildGroups nodes gp).1 ++
      ((buildGroups nodes gp).2 ++ singlesOf (buildGroups nodes gp).1) := by
  simp [processHierarchicalGrouping, phase2_eq]

end Group

namespace Group

theorem append_left_cancel_str {p a b : String} (h : p ++ a = p ++ b) : a = b := by
  have hd := congrArg String.data h
  rw [String.data_append, String.data_append] at hd
  have h2 := List.append_cancel_left hd
  exact congrArg String.mk (by simpa using h2)

theorem group_id_beq_false {a b : String} (h : b ≠ a) :
    (("group-" ++ b) == ("group-" ++ a)) = false := by
  rw [beq_eq_false_iff_ne]
  intro he
  exact h (append_left_cancel_str he)

theorem insertGroup_keys (gs : List (String × List RNode)) (k : String) (n : RNode) :
    (insertGroup gs k n).map Prod.fst =
      if gs.any (fun e => e.1 == k) then gs.map Prod.fst
      else gs.map Prod.fst ++ [k] := by
  unfold insertGroup
  split
  · rw [List.map_map]
    apply List.map_congr_left
    intro e _
    simp only [Function.comp_apply]
    split <;> rfl
  · simp

theorem insertGroup_nodupkeys {gs : List (String × List RNode)} {k : String}
    {n : RNode} (h : (gs.map Prod.fst).Nodup) :
    ((insertGroup gs k n).map Prod.fst).Nodup := by
  rw [insertGroup_keys]
  split
  · exact h
  · rename_i hany
    rw [Bool.not_eq_true, List.any_eq_false] at hany
    rw [List.nodup_append]
    refine ⟨h, List.nodup_singleton k, ?_⟩
    intro x hx hk
    rw [List.mem_singleton] at hk
    subst hk
    rcases List.mem_map.mp hx with ⟨e, he, hfst⟩
    exact (hany e he) (by rw [hfst]; exact beq_self_eq_true x)

theorem insertGroup_entry_mem {gs : List (String × List RNode)} {k : String}
    {n : RNode} {e : String × List RNode} (he : e ∈ insertGroup gs k n) :
    ∀ m ∈ e.2, (∃ e0 ∈ gs, m ∈ e0.2) ∨ m = n := by
  unfold insertGroup at he
  split at he
  · rcases List.mem_map.mp he with ⟨e0, he0, heq⟩
    intro m hm
    by_cases hk : (e0.1 == k) = true
    · rw [if_pos hk] at heq
      subst heq
      rcases List.mem_append.mp hm with h | h
      · exact Or.inl ⟨e0, he0, h⟩
      · exact Or.inr (List.mem_singleton.mp h)
    · rw [if_neg hk] at heq
      subst heq
      exact Or.inl ⟨e0, he0, hm⟩
  · rcases List.mem_append.mp he with h | h
    · intro m hm
      exact Or.inl ⟨e, h, hm⟩
    · rw [List.mem_singleton] at h
      subst h
      intro m hm
      exact Or.inr (List.mem_singleton.mp hm)

/-- Combined invariant of the first `forEach`: (a) `ungroupedNodes`
collects exactly the nodes with falsy grouping value, in order; (b) the
group keys are distinct; (c) every group member is a truthy node of the
input (or came from the accumulator). -/
theorem buildGroupsAux_spec (gp : String) :
    ∀ (l : List RNode) (acc : List (String × List RNode) × List RNode),
      (buildGroupsAux gp l acc).2 =
        acc.2 ++ l.filter (fun n => !(getPropVal n.props gp).truthy) ∧
      ((acc.1.map Prod.fst).Nodup →
        (((buildGroupsAux gp l acc).1).map Prod.fst).Nodup) ∧
      (∀ e ∈ (buildGroupsAux gp l acc).1, ∀ m ∈ e.2,
        (∃ e0 ∈ acc.1, m ∈ e0.2) ∨
        (m ∈ l ∧ (getPropVal m.props gp).truthy = true)) := by
  intro l
  induction l with
  | nil =>
    intro acc
    refine ⟨by simp [buildGroupsAux], fun h => h, ?_⟩
    intro e he m hm
    exact Or.inl ⟨e, he, hm⟩
  | cons node rest ih =>
    intro acc
    by_cases ht : (getPropVal node.props gp).truthy
    · have hstep : buildGroupsAux gp (node :: rest) acc =
          buildGroupsAux gp rest
            (insertGroup acc.1 (getPropVal node.props gp).toStr node, acc.2) := by
        simp [buildGroupsAux, ht]
      obtain ⟨iha, ihb, ihc⟩ :=
        ih (insertGroup acc.1 (getPropVal node.props gp).toStr node, acc.2)
      refine ⟨?_, ?_, ?_⟩
      · rw [hstep, iha]
        simp [List.filter_cons, ht]
      · intro hnd
        rw [hstep]
        exact ihb (insertGroup_nodupkeys hnd)
      · intro e he m hm
        rw [hstep] at he
        rcases ihc e he m hm with h | h
        · rcases h with ⟨e0, he0, hm0⟩
          rcases insertGroup_entry_mem he0 m hm0 with h2 | h2
          · rcases h2 with ⟨e1, he1, hm1⟩
            exact Or.inl ⟨e1, he1, hm1⟩
          · subst h2
            exact Or.inr ⟨List.mem_cons_self _ _, ht⟩
        · exact Or.inr ⟨List.mem_cons_of_mem _ h.1, h.2⟩
    · have hstep : buildGroupsAux gp (node :: rest) acc =
          buildGroupsAux gp rest (acc.1, acc.2 ++ [node]) := by
        simp [buildGroupsAux, ht]
      obtain ⟨iha, ihb, ihc⟩ := ih (acc.1, acc.2 ++ [node])
      refine ⟨?_, ?_, ?_⟩
      · rw [hstep, iha]
        simp only [List.filter_cons]
        rw [Bool.not_eq_true] at ht
        simp [ht]
      · intro hnd
        rw [hstep]
        exact ihb hnd
      · intro e he m hm
        rw [hstep] at he
        rcases ihc e he m hm with h | h
        · exact Or.inl h
        · exact Or.inr ⟨List.mem_cons_of_mem _ h.1, h.2⟩

theorem buildGroups_ungrouped (nodes : List RNode) (gp : String) :
    (buildGroups nodes gp).2 =
      nodes.filter (fun n => !(getPropVal n.props gp).truthy) := by
  have h := (buildGroupsAux_spec gp nodes ([], [])).1
  simpa [buildGroups] using h

theorem buildGroups_nodupkeys (nodes : List RNode) (gp : String) :
    (((buildGroups nodes gp).1).map Prod.fst).Nodup :=
  (buildGroupsAux_spec gp nodes ([], [])).2.1 (by simp)

theorem buildGroups_members (nodes : List RNode) (gp : String) :
    ∀ e ∈ (buildGroups nodes gp).1, ∀ m ∈ e.2,
      m ∈ nodes ∧ (getPropVal m.props gp).truthy = true := by
  intro e he m hm
  rcases (buildGroupsAux_spec gp nodes ([], [])).2.2 e he m hm with h | h
  · simp at h
  · exact h

end Group

namespace Group

theorem some_beq_some (a b : String) :
    ((some a : Option String) == some b) = (a == b) := rfl

theorem none_beq_some (a : String) :
    ((none : Option String) == some a) = false := rfl

theorem childrenFor_map_id (gv : String) (ms : List RNode) :
    (childrenFor gv ms).map RNode.id = ms.map RNode.id := by
  unfold childrenFor
  conv_rhs => rw [← List.enum_map_snd ms]
  rw [List.map_map, List.map_map]
  rfl

theorem parentsOf_mem (gp : String) :
    ∀ l, ∀ p ∈ parentsOf gp l,
      ∃ e ∈ l, e.2.length > 1 ∧ p = mkParent gp e.1 e.2 := by
  intro l
  induction l with
  | nil => intro p hp; simp [parentsOf] at hp
  | cons e rest ih =>
    intro p hp
    unfold parentsOf at hp
    rcases List.mem_append.mp hp with h | h
    · by_cases hl : e.2.length > 1
      · rw [if_pos hl, List.mem_singleton] at h
        exact ⟨e, List.mem_cons_self e rest, hl, h⟩
      · rw [if_neg hl] at h
        simp at h
    · rcases ih p h with ⟨e0, he0, hl0, hp0⟩
      exact ⟨e0, List.mem_cons_of_mem e he0, hl0, hp0⟩

theorem parentsOf_filter_other (gp gv : String) :
    ∀ l, (∀ e ∈ l, e.1 ≠ gv) →
      (parentsOf gp l).filter (fun n => n.isGroup && n.id == "group-" ++ gv) = [] := by
  intro l
  induction l with
  | nil => intro _; rfl
  | cons e rest ih =>
    intro h
    have hne : e.1 ≠ gv := h e (List.mem_cons_self e rest)
    unfold parentsOf
    rw [List.filter_append, ih (fun x hx => h x (List.mem_cons_of_mem e hx))]
    by_cases hl : e.2.length > 1
    · simp [hl, List.filter_cons, mkParent, group_id_beq_false hne]
    · simp [hl]

theorem parentsOf_filter_hit (gp gv : String) (ms : List RNode) :
    ∀ l, (l.map Prod.fst).Nodup → (gv, ms) ∈ l → ms.length > 1 →
      (parentsOf gp l).filter (fun n => n.isGroup && n.id == "group-" ++ gv) =
        [mkParent gp gv ms] := by
  intro l
  induction l with
  | nil => intro _ h; simp at h
  | cons e rest ih =>
    intro hnd hmem hlen
    rw [List.map_cons, List.nodup_cons] at hnd
    rcases List.mem_cons.mp hmem with heq | hmem2
    · have hkeys : ∀ x ∈ rest, x.1 ≠ gv := by
        intro x hx hxeq
        apply hnd.1
        rw [← heq]
        exact List.mem_map.mpr ⟨x, hx, by rw [hxeq]⟩
      unfold parentsOf
      rw [List.filter_append, parentsOf_filter_other gp gv rest hkeys, ← heq]
      simp [hlen, List.filter_cons, mkParent, beq_self_eq_true]
    · have hne : e.1 ≠ gv := by
        intro he
        apply hnd.1
        rw [he]
        exact List.mem_map.mpr ⟨(gv, ms), hmem2, rfl⟩
      unfold parentsOf
      rw [List.filter_append, ih hnd.2 hmem2 hlen]
      by_cases hl : e.2.length > 1
      · simp [hl, List.filter_cons, mkParent, group_id_beq_false hne]
      · simp [hl]

theorem childrenFor_filter_self (gv : String) (ms : List RNode) :
    (childrenFor gv ms).filter
      (fun n => n.parentNode == some ("group-" ++ gv)) = childrenFor gv ms := by
  rw [List.filter_eq_self]
  intro c hc
  rcases List.mem_map.mp hc with ⟨p, -, rfl⟩
  simp [mkChild, some_beq_some]

theorem childrenFor_filter_other {gv gv' : String} (h : gv' ≠ gv) (ms : List RNode) :
    (childrenFor gv' ms).filter
      (fun n => n.parentNode == some ("group-" ++ gv)) = [] := by
  rw [List.filter_eq_nil_iff]
  intro c hc
  rcases List.mem_map.mp hc with ⟨p, -, rfl⟩
  simp [mkChild, some_beq_some, group_id_beq_false h]

theorem childrenOf_filter_parent_other (gv : String) :
    ∀ l, (∀ e ∈ l, e.1 ≠ gv) →
      (childrenOf l).filter (fun n => n.parentNode == some ("group-" ++ gv)) = [] := by
  intro l
  induction l with
  | nil => intro _; rfl
  | cons e rest ih =>
    intro h
    have hne : e.1 ≠ gv := h e (List.mem_cons_self e rest)
    unfold childrenOf
    rw [List.filter_append, ih (fun x hx => h x (List.mem_cons_of_mem e hx))]
    by_cases hl : e.2.length > 1
    · simp [hl, childrenFor_filter_other hne]
    · simp [hl]

theorem childrenOf_filter_parent_hit (gv : String) (ms : List RNode) :
    ∀ l, (l.map Prod.fst).Nodup → (gv, ms) ∈ l → ms.length > 1 →
      (childrenOf l).filter (fun n => n.parentNode == some ("group-" ++ gv)) =
        childrenFor gv ms := by
  intro l
  induction l with
  | nil => intro _ h; simp at h
  | cons e rest ih =>
    intro hnd hmem hlen
    rw [List.map_cons, List.nodup_cons] at hnd
    rcases List.mem_cons.mp hmem with heq | hmem2
    · have hkeys : ∀ x ∈ rest, x.1 ≠ gv := by
        intro x hx hxeq
        apply hnd.1
        rw [← heq]
        exact List.mem_map.mpr ⟨x, hx, by rw [hxeq]⟩
      unfold childrenOf
      rw [List.filter_append, childrenOf_filter_parent_other gv rest hkeys, ← heq]
      simp [hlen, childrenFor_filter_self]
    · have hne : e.1 ≠ gv := by
        intro he
        apply hnd.1
        rw [he]
        exact List.mem_map.mpr ⟨(gv, ms), hmem2, rfl⟩
      unfold childrenOf
      rw [List.filter_append, ih hnd.2 hmem2 hlen]
      by_cases hl : e.2.length > 1
      · simp [hl, childrenFor_filter_other hne]
      · simp [hl]

theorem childrenOf_isGroup (l : List (String × List RNode))
    (h : ∀ e ∈ l, ∀ m ∈ e.2, m.isGroup = false) :
    ∀ c ∈ childrenOf l, c.isGroup = false := by
  induction l with
  | nil => intro c hc; simp [childrenOf] at hc
  | cons e rest ih =>
    intro c hc
    unfold childrenOf at hc
    rcases List.mem_append.mp hc with h2 | h2
    · by_cases hl : e.2.length > 1
      · rw [if_pos hl] at h2
        rcases List.mem_map.mp h2 with ⟨p, hp, rfl⟩
        have hmem : p.2 ∈ e.2 := by
          have := List.enum_map_snd e.2
          rw [← this]
          exact List.mem_map.mpr ⟨p, hp, rfl⟩
        exact h e (List.mem_cons_self e rest) p.2 hmem
      · rw [if_neg hl] at h2
        simp at h2
    · exact ih (fun x hx => h x (List.mem_cons_of_mem e hx)) c h2

theorem singlesOf_sub : ∀ l, ∀ x ∈ singlesOf l, ∃ e ∈ l, x ∈ e.2 := by
  intro l
  induction l with
  | nil => intro x hx; simp [singlesOf] at hx
  | cons e rest ih =>
    intro x hx
    unfold singlesOf at hx
    rcases List.mem_append.mp hx with h | h
    · by_cases hl : e.2.length > 1
      · rw [if_pos hl] at h; simp at h
      · rw [if_neg hl] at h
        exact ⟨e, List.mem_cons_self e rest, h⟩
    · rcases ih x h with ⟨e0, he0, hx0⟩
      exact ⟨e0, List.mem_cons_of_mem e he0, hx0⟩

theorem singlesOf_mem_of (gv : String) (ms : List RNode) :
    ∀ l, (gv, ms) ∈ l → ¬(ms.length > 1) → ∀ m ∈ ms, m ∈ singlesOf l := by
  intro l
  induction l with
  | nil => intro h; simp at h
  | cons e rest ih =>
    intro hmem hlen m hm
    unfold singlesOf
    rcases List.mem_cons.mp hmem with heq | hmem2
    · rw [← heq]
      simp only [hlen, if_false]
      exact List.mem_append.mpr (Or.inl hm)
    · exact List.mem_append.mpr (Or.inr (ih hmem2 hlen m hm))

theorem filter_isGroup_pred_nil {l : List RNode}
    (h : ∀ n ∈ l, n.isGroup = false) (gv : String) :
    l.filter (fun n => n.isGroup && n.id == "group-" ++ gv) = [] := by
  rw [List.filter_eq_nil_iff]
  intro n hn
  simp [h n hn]

theorem filter_parent_pred_nil {l : List RNode}
    (h : ∀ n ∈ l, n.parentNode = none) (gv : String) :
    l.filter (fun n => n.parentNode == some ("group-" ++ gv)) = [] := by
  rw [List.filter_eq_nil_iff]
  intro n hn
  simp [h n hn, none_beq_some]

end Group

namespace Group

theorem parentsOf_filter_single (gp gv : String) (ms : List RNode) :
    ∀ l, (l.map Prod.fst).Nodup → (gv, ms) ∈ l → ¬(ms.length > 1) →
      (parentsOf gp l).filter (fun n => n.isGroup && n.id == "group-" ++ gv) = [] := by
  intro l
  induction l with
  | nil => intro _ h; simp at h
  | cons e rest ih =>
    intro hnd hmem hlen
    rw [List.map_cons, List.nodup_cons] at hnd
    rcases List.mem_cons.mp hmem with heq | hmem2
    · have hkeys : ∀ x ∈ rest, x.1 ≠ gv := by
        intro x hx hxeq
        apply hnd.1
        rw [← heq]
        exact List.mem_map.mpr ⟨x, hx, by rw [hxeq]⟩
      unfold parentsOf
      rw [List.filter_append, parentsOf_filter_other gp gv rest hkeys, ← heq]
      simp [hlen]
    · have hne : e.1 ≠ gv := by
        intro he
        apply hnd.1
        rw [he]
        exact List.mem_map.mpr ⟨(gv, ms), hmem2, rfl⟩
      unfold parentsOf
      rw [List.filter_append, ih hnd.2 hmem2 hlen]
      by_cases hl : e.2.length > 1
      · simp [hl, List.filter_cons, mkParent, group_id_beq_false hne]
      · simp [hl]

/-- The two nodes of the C10 empty-string example. -/
def emptyA : RNode := { id := "a", props := [("g", JSVal.str "")] }

/-- Second node carrying the empty-string grouping value. -/
def emptyB : RNode := { id := "b", props := [("g", JSVal.str "")] }

/-- The two nodes of the C2 witness, sharing grouping value `"X"`. -/
def xa : RNode := { id := "a", props := [("g", JSVal.str "X")] }

/-- Second node with grouping value `"X"`. -/
def xb : RNode := { id := "b", props := [("g", JSVal.str "X")] }

end Group

/-- C2: for every partition entry with ≥2 members the engine emits
exactly one group node `group-<value>` carrying `childCount` = member
count, and the nodes re-parented under it are exactly the members in
their original relative order; a singleton partition yields no group
node and its member stays ungrouped (no `parentNode`); and every group
node in the output stems from a ≥2-member partition. -/
theorem C2_group_synthesis (nodes : List RNode) (edges : List REdge) (gp : String)
    (hclean : ∀ n ∈ nodes, n.isGroup = false ∧ n.parentNode = none) :
    (∀ gv ms, (gv, ms) ∈ (Group.buildGroups nodes gp).1 → ms.length > 1 →
       ((Group.processHierarchicalGrouping nodes edges gp).1.filter
          (fun n => n.isGroup && n.id == "group-" ++ gv)).map RNode.childCount
         = [some ms.length] ∧
       ((Group.processHierarchicalGrouping nodes edges gp).1.filter
          (fun n => n.parentNode == some ("group-" ++ gv))).map RNode.id
         = ms.map RNode.id) ∧
    (∀ gv ms, (gv, ms) ∈ (Group.buildGroups nodes gp).1 → ms.length = 1 →
       ((Group.processHierarchicalGrouping nodes edges gp).1.filter
          (fun n => n.isGroup && n.id == "group-" ++ gv)) = [] ∧
       ∀ m ∈ ms, m.id ∈ ((Group.processHierarchicalGrouping nodes edges gp).1.filter
          (fun n => !n.isGroup && n.parentNode == none)).map RNode.id) ∧
    (∀ p ∈ (Group.processHierarchicalGrouping nodes edges gp).1, p.isGroup = true →
       ∃ gv ms, (gv, ms) ∈ (Group.buildGroups nodes gp).1 ∧ ms.length > 1 ∧
         p.id = "group-" ++ gv) := by
  have hnd := Group.buildGroups_nodupkeys nodes gp
  have hmem := Group.buildGroups_members nodes gp
  have hout := Group.processHierarchicalGrouping_nodes nodes edges gp
  have hchild_flat : ∀ e ∈ (Group.buildGroups nodes gp).1, ∀ m ∈ e.2,
      m.isGroup = false :=
    fun e he m hm => (hclean m (hmem e he m hm).1).1
  have hu0 : ∀ n ∈ (Group.buildGroups nodes gp).2,
      n.isGroup = false ∧ n.parentNode = none := by
    intro n hn
    rw [Group.buildGroups_ungrouped] at hn
    exact hclean n (List.mem_filter.mp hn).1
  have hsingles : ∀ n ∈ Group.singlesOf (Group.buildGroups nodes gp).1,
      n.isGroup = false ∧ n.parentNode = none := by
    intro n hn
    rcases Group.singlesOf_sub _ n hn with ⟨e, he, hm⟩
    exact hclean n (hmem e he n hm).1
  have hpar_none : ∀ p ∈ Group.parentsOf gp (Group.buildGroups nodes gp).1,
      p.parentNode = none := by
    intro p hp
    rcases Group.parentsOf_mem gp _ p hp with ⟨e, -, -, rfl⟩
    rfl
  refine ⟨?_, ?_, ?_⟩
  · intro gv ms hgv hlen
    constructor
    · rw [hout, List.filter_append, List.filter_append, List.filter_append,
        Group.parentsOf_filter_hit gp gv ms _ hnd hgv hlen,
        Group.filter_isGroup_pred_nil (Group.childrenOf_isGroup _ hchild_flat) gv,
        Group.filter_isGroup_pred_nil (fun n hn => (hu0 n hn).1) gv,
        Group.filter_isGroup_pred_nil (fun n hn => (hsingles n hn).1) gv]
      rfl
    · rw [hout, List.filter_append, List.filter_append, List.filter_append,
        Group.filter_parent_pred_nil hpar_none gv,
        Group.childrenOf_filter_parent_hit gv ms _ hnd hgv hlen,
        Group.filter_parent_pred_nil (fun n hn => (hu0 n hn).2) gv,
        Group.filter_parent_pred_nil (fun n hn => (hsingles n hn).2) gv]
      simp [Group.childrenFor_map_id]
  · intro gv ms hgv hlen
    have hnot : ¬(ms.length > 1) := by omega
    constructor
    · rw [hout, List.filter_append, List.filter_append, List.filter_append,
        Group.parentsOf_filter_single gp gv ms _ hnd hgv hnot,
        Group.filter_isGroup_pred_nil (Group.childrenOf_isGroup _ hchild_flat) gv,
        Group.filter_isGroup_pred_nil (fun n hn => (hu0 n hn).1) gv,
        Group.filter_isGroup_pred_nil (fun n hn => (hsingles n hn).1) gv]
      rfl
    · intro m hm
      have hmn : m ∈ nodes := (hmem _ hgv m hm).1
      have hms : m ∈ Group.singlesOf (Group.buildGroups nodes gp).1 :=
        Group.singlesOf_mem_of gv ms _ hgv hnot m hm
      have hmo : m ∈ (Group.processHierarchicalGrouping nodes edges gp).1 := by
        rw [hout]
        exact List.mem_append.mpr (Or.inr (List.mem_append.mpr (Or.inr hms)))
      apply List.mem_map.mpr
      refine ⟨m, List.mem_filter.mpr ⟨hmo, ?_⟩, rfl⟩
      rw [(hclean m hmn).1, (hclean m hmn).2]
      rfl
  · intro p hp hpg
    rw [hout] at hp
    rcases List.mem_append.mp hp with hp1 | hp2
    · rcases List.mem_append.mp hp1 with hpp | hpc
      · rcases Group.parentsOf_mem gp _ p hpp with ⟨e, he, hl, rfl⟩
        exact ⟨e.1, e.2, he, hl, rfl⟩
      · exact absurd hpg (by rw [Group.childrenOf_isGroup _ hchild_flat p hpc]; simp)
    · rcases List.mem_append.mp hp2 with hpu | hps
      · exact absurd hpg (by rw [(hu0 p hpu).1]; simp)
      · exact absurd hpg (by rw [(hsingles p hps).1]; simp)

/-- Witness for C2 at two nodes sharing grouping value `"X"`: exactly
one group node with `childCount = 2`, children `["a", "b"]` in input
order. -/
theorem C2_group_synthesis_witness :
    ((Group.processHierarchicalGrouping [Group.xa, Group.xb] [] "g").1.filter
       (fun n => n.isGroup && n.id == "group-" ++ "X")).map RNode.childCount
      = [some 2] ∧
    ((Group.processHierarchicalGrouping [Group.xa, Group.xb] [] "g").1.filter
       (fun n => n.parentNode == some ("group-" ++ "X"))).map RNode.id
      = ["a", "b"] := by
  have h := (C2_group_synthesis [Group.xa, Group.xb] [] "g"
      (by intro n hn; fin_cases hn <;> exact ⟨rfl, rfl⟩)).1
      "X" [Group.xa, Group.xb]
      (List.mem_singleton.mpr rfl) (by decide)
  exact ⟨h.1, by rw [h.2]; rfl⟩

/-- C10: membership in a grouping partition is decided by JS truthiness
of the property value — nodes whose value is falsy (absent, `""`, `0`,
`false`, `null`, `NaN`, `undefined`) land in `ungroupedNodes` exactly
like property-less nodes, and every partition member has a truthy
value; concretely, two nodes both carrying `""` produce no group and
pass through unparented. -/
theorem C10_falsy_values_ungrouped :
    (∀ (nodes : List RNode) (gp : String),
       (Group.buildGroups nodes gp).2 =
         nodes.filter (fun n => !(Group.getPropVal n.props gp).truthy) ∧
       ∀ e ∈ (Group.buildGroups nodes gp).1, ∀ m ∈ e.2,
         (Group.getPropVal m.props gp).truthy = true) ∧
    (Group.processHierarchicalGrouping [Group.emptyA, Group.emptyB] [] "g").1.map
      RNode.id = ["a", "b"] ∧
    (Group.processHierarchicalGrouping [Group.emptyA, Group.emptyB] [] "g").1.any
      RNode.isGroup = false ∧
    (Group.processHierarchicalGrouping [Group.emptyA, Group.emptyB] [] "g").1.all
      (fun n => n.parentNode == none) = true := by
  refine ⟨?_, by rfl, by rfl, by rfl⟩
  intro nodes gp
  exact ⟨Group.buildGroups_ungrouped nodes gp,
    fun e he m hm => (Group.buildGroups_members nodes gp e he m hm).2⟩

/-- Witness for C10 at a single falsy-valued node: the ungrouped-filter
equation instantiated concretely. -/
theorem C10_falsy_values_ungrouped_witness :
    (Group.buildGroups [Group.emptyA] "g").2 =
      [Group.emptyA].filter
        (fun n => !(Group.getPropVal n.props "g").truthy) :=
  (C10_falsy_values_ungrouped.1 [Group.emptyA] "g").1

/-!
Force-directed layout engine
(`calculateForceLayout`, graph fallback, src/unnamed/part_002:518-584;
the ReactFlow fallback `calculateNodeLayout` differs only in constants,
its small-`N` special cases and circular initialization)

`Math.sqrt` is an explicit parameter `sqrtQ : ℚ → ℚ` (the verified
bounds hold for every choice of it); `Math.random()` is a stream
`rnd : Nat → ℚ`, consumed two values per node at initialization.  The
JS position objects keyed by id are an insertion-ordered association
list; reading a missing key (`positions[id].x` on `undefined`) is the
thrown `TypeError`, i.e. `none`.
-/

/-- One entry of the JS `positions` object:
`{x, y, vx, vy}` (velocities double as force accumulators). -/
structure PPos where
  x : ℚ
  y : ℚ
  vx : ℚ
  vy : ℚ
deriving DecidableEq

/-- A node handed to the layout (only its `id` is read). -/
structure LNode where
  id : String
deriving DecidableEq

/-- A link `{source, target}` between node ids. -/
structure LLink where
  source : String
  target : String
deriving DecidableEq

namespace Layout

/-- The id-keyed `positions` object. -/
abbrev PosMap := List (String × PPos)

/-- `svgWidth` of the fallback layout. -/
def svgWidth : ℚ := 600

/-- `svgHeight` of the fallback layout. -/
def svgHeight : ℚ := 350

/-- `margin` of the fallback layout. -/
def margin : ℚ := 40

/-- `positions[k]` as a read: `none` when the key is absent (so a
subsequent member access throws). -/
def lookupPos (ps : PosMap) (k : String) : Option PPos :=
  (ps.find? (fun e => e.1 == k)).map Prod.snd

/-- `positions[k] = v`: replace the entry if present, else append. -/
def updatePos (ps : PosMap) (k : String) (v : PPos) : PosMap :=
  if (ps.find? (fun e => e.1 == k)).isSome then
    ps.map (fun e => if e.1 == k then (k, v) else e)
  else ps ++ [(k, v)]

/-- Read-modify-write `positions[k].f = g(positions[k])`; `none` models
the `TypeError` thrown when `positions[k]` is `undefined`. -/
def modifyPos (ps : PosMap) (k : String) (f : PPos → PPos) : Option PosMap :=
  match lookupPos ps k with
  | none => none
  | some p => some (updatePos ps k (f p))

/-- `Math.sqrt(dxdx+dydy) || 1` — only a zero (or `NaN`) square root is
replaced by `1`. -/
def jsOrOne (d : ℚ) : ℚ := if d = 0 then 1 else d

/-- The clamp `Math.max(margin, Math.min(hi, v))`. -/
def clampQ (lo hi v : ℚ) : ℚ := Chart.qMax lo (Chart.qMin hi v)

/-- Initialization: every node id gets a fresh random position inside
`[margin, dimension − margin)`, with zero velocity. -/
def initPositions (rnd : Nat → ℚ) (nodes : List LNode) : PosMap :=
  (nodes.enum.foldl (fun ps e =>
    updatePos ps e.2.id
      { x := margin + rnd (2 * e.1) * (svgWidth - 2 * margin),
        y := margin + rnd (2 * e.1 + 1) * (svgHeight - 2 * margin),
        vx := 0, vy := 0 }) [])

/-- The per-iteration force reset: `positions[node.id].vx = 0; …vy = 0`. -/
def resetForces : List LNode → PosMap → Option PosMap
  | [], ps => some ps
  | n :: rest, ps =>
    match modifyPos ps n.id (fun p => { p with vx := 0, vy := 0 }) with
    | none => none
    | some ps1 => resetForces rest ps1

/-- `dx*dx + dy*dy` for one ordered pair of positions. -/
def sqDist (pa pb : PPos) : ℚ :=
  (pa.x - pb.x) * (pa.x - pb.x) + (pa.y - pb.y) * (pa.y - pb.y)

/-- The distance used by the repulsion body for one ordered pair:
`Math.sqrt(dx*dx + dy*dy) || 1`. -/
def repelDistance (sqrtQ : ℚ → ℚ) (pa pb : PPos) : ℚ :=
  jsOrOne (sqrtQ (sqDist pa pb))

/-- The repulsion body for one ordered pair `(nodeA, nodeB)`:
`force = 2000 / distance²`, accumulated into `nodeA`'s velocity, scaled
by `alpha`. -/
def repelPair (sqrtQ : ℚ → ℚ) (alpha : ℚ) (ps : PosMap) (a b : LNode) :
    Option PosMap :=
  if a.id ≠ b.id then
    match lookupPos ps a.id, lookupPos ps b.id with
    | some pa, some pb =>
      let dx := pa.x - pb.x
      let dy := pa.y - pb.y
      let distance := repelDistance sqrtQ pa pb
      let force := 2000 / (distance * distance)
      modifyPos ps a.id (fun p =>
        { p with vx := p.vx + dx / distance * force * alpha,
                 vy := p.vy + dy / distance * force * alpha })
    | _, _ => none
  else some ps

/-- Inner `nodes.forEach(nodeB => …)` of the repulsion phase. -/
def repelInner (sqrtQ : ℚ → ℚ) (alpha : ℚ) (a : LNode) :
    List LNode → PosMap → Option PosMap
  | [], ps => some ps
  | b :: rest, ps =>
    match repelPair sqrtQ alpha ps a b with
    | none => none
    | some ps1 => repelInner sqrtQ alpha a rest ps1

/-- Outer `nodes.forEach(nodeA => …)` of the repulsion phase. -/
def repulsionStep (sqrtQ : ℚ → ℚ) (alpha : ℚ) (allNodes : List LNode) :
    List LNode → PosMap → Option PosMap
  | [], ps => some ps
  | a :: rest, ps =>
    match repelInner sqrtQ alpha a allNodes ps with
    | none => none
    | some ps1 => repulsionStep sqrtQ alpha allNodes rest ps1

/-- The attraction body of one link: reads `positions[link.target]` and
`positions[link.source]` (throwing on a dangling id), then pulls both
endpoints together with `force = distance * 0.02`, scaled by `alpha`. -/
def attractLink (sqrtQ : ℚ → ℚ) (alpha : ℚ) (ps : PosMap) (l : LLink) :
    Option PosMap :=
  match lookupPos ps l.target, lookupPos ps l.source with
  | some pt, some psrc =>
    let dx := pt.x - psrc.x
    let dy := pt.y - psrc.y
    let distance := jsOrOne (sqrtQ (dx * dx + dy * dy))
    let force := distance * (2 / 100)
    match modifyPos ps l.source (fun p =>
        { p with vx := p.vx + dx / distance * force * alpha,
                 vy := p.vy + dy / distance * force * alpha }) with
    | none => none
    | some ps1 =>
      modifyPos ps1 l.target (fun p =>
        { p with vx := p.vx - dx / distance * force * alpha,
                 vy := p.vy - dy / distance * force * alpha })
  | _, _ => none

/-- `links.forEach(link => …)` of the attraction phase. -/
def attractionStep (sqrtQ : ℚ → ℚ) (alpha : ℚ) :
    List LLink → PosMap → Option PosMap
  | [], ps => some ps
  | l :: rest, ps =>
    match attractLink sqrtQ alpha ps l with
    | none => none
    | some ps1 => attractionStep sqrtQ alpha rest ps1

/-- The integration/bounding phase: `x += vx; y += vy` then clamp both
coordinates into `[margin, dimension − margin]`. -/
def applyForces : List LNode → PosMap → Option PosMap
  | [], ps => some ps
  | n :: rest, ps =>
    match modifyPos ps n.id (fun p =>
        { p with x := clampQ margin (svgWidth - margin) (p.x + p.vx),
                 y := clampQ margin (svgHeight - margin) (p.y + p.vy) }) with
    | none => none
    | some ps1 => applyForces rest ps1

/-- One simulation iteration: `alpha = Math.max(0.01, 1 - iteration/100)`,
reset, repulsion, attraction, integration with clamping. -/
def forceIteration (sqrtQ : ℚ → ℚ) (nodes : List LNode) (links : List LLink)
    (iteration : Nat) (ps : PosMap) : Option PosMap :=
  let alpha := Chart.qMax (1 / 100) (1 - (iteration : ℚ) / 100)
  match resetForces nodes ps with
  | none => none
  | some ps1 =>
    match repulsionStep sqrtQ alpha nodes nodes ps1 with
    | none => none
    | some ps2 =>
      match attractionStep sqrtQ alpha links ps2 with
      | none => none
      | some ps3 => applyForces nodes ps3

/-- The iteration driver `for (let iteration = 0; iteration < 100; …)`. -/
def iterate (sqrtQ : ℚ → ℚ) (nodes : List LNode) (links : List LLink) :
    List Nat → PosMap → Option PosMap
  | [], ps => some ps
  | i :: rest, ps =>
    match forceIteration sqrtQ nodes links i ps with
    | none => none
    | some ps1 => iterate sqrtQ nodes links rest ps1

/-- `calculateForceLayout(nodes, links)` (part_002:518-584): random
initialization followed by 100 damped force iterations. -/
def calculateForceLayout (sqrtQ : ℚ → ℚ) (rnd : Nat → ℚ)
    (nodes : List LNode) (links : List LLink) : Option PosMap :=
  iterate sqrtQ nodes links (List.range 100) (initPositions rnd nodes)

/-- Both coordinates inside the canvas margins. -/
def inBounds (p : PPos) : Prop :=
  margin ≤ p.x ∧ p.x ≤ svgWidth - margin ∧
  margin ≤ p.y ∧ p.y ≤ svgHeight - margin

instance (p : PPos) : Decidable (inBounds p) := by
  unfold inBounds
  infer_instance

end Layout

namespace Layout

theorem modifyPos_some {ps : PosMap} {k : String} {f : PPos → PPos} {ps' : PosMap}
    (h : modifyPos ps k f = some ps') :
    ∃ p0, lookupPos ps k = some p0 ∧
      ps' = ps.map (fun e => if e.1 == k then (k, f p0) else e) := by
  unfold modifyPos at h
  cases hl : lookupPos ps k with
  | none => rw [hl] at h; exact Option.noConfusion h
  | some p0 =>
    rw [hl] at h
    injection h with h
    refine ⟨p0, rfl, ?_⟩
    rw [← h]
    unfold updatePos
    rw [if_pos ?_]
    unfold lookupPos at hl
    rcases Option.map_eq_some'.mp hl with ⟨e0, hfind, -⟩
    rw [hfind]
    rfl

theorem modifyPos_mem {ps : PosMap} {k : String} {f : PPos → PPos} {ps' : PosMap}
    (h : modifyPos ps k f = some ps') :
    ∀ e ∈ ps',
      (e.1 = k ∧ ∃ p0, lookupPos ps k = some p0 ∧ e = (k, f p0)) ∨
      (e.1 ≠ k ∧ e ∈ ps) := by
  rcases modifyPos_some h with ⟨p0, hp0, rfl⟩
  intro e he
  rcases List.mem_map.mp he with ⟨a, ha, rfl⟩
  by_cases hk : (a.1 == k) = true
  · rw [if_pos hk]
    exact Or.inl ⟨rfl, p0, hp0, rfl⟩
  · rw [if_neg hk]
    exact Or.inr ⟨by simpa using hk, ha⟩

theorem modifyPos_fst {ps : PosMap} {k : String} {f : PPos → PPos} {ps' : PosMap}
    (h : modifyPos ps k f = some ps') :
    ps'.map Prod.fst = ps.map Prod.fst := by
  rcases modifyPos_some h with ⟨p0, -, rfl⟩
  rw [List.map_map]
  apply List.map_congr_left
  intro e _
  simp only [Function.comp_apply]
  by_cases hk : (e.1 == k) = true
  · rw [if_pos hk]
    exact (beq_iff_eq.mp hk).symm
  · rw [if_neg hk]

theorem updatePos_mem {ps : PosMap} {k : String} {v : PPos} :
    ∀ e ∈ updatePos ps k v, e = (k, v) ∨ e ∈ ps := by
  unfold updatePos
  split
  · intro e he
    rcases List.mem_map.mp he with ⟨a, ha, rfl⟩
    by_cases hk : (a.1 == k) = true
    · rw [if_pos hk]
      exact Or.inl rfl
    · rw [if_neg hk]
      exact Or.inr ha
  · intro e he
    rcases List.mem_append.mp he with h | h
    · exact Or.inr h
    · exact Or.inl (List.mem_singleton.mp h)

theorem clampQ_bounds {lo hi : ℚ} (h : lo ≤ hi) (v : ℚ) :
    lo ≤ clampQ lo hi v ∧ clampQ lo hi v ≤ hi := by
  unfold clampQ Chart.qMax Chart.qMin
  split_ifs <;> constructor <;> linarith

theorem margin_le_w : margin ≤ svgWidth - margin := by
  unfold margin svgWidth
  norm_num

theorem margin_le_h : margin ≤ svgHeight - margin := by
  unfold margin svgHeight
  norm_num

theorem applyForces_spec :
    ∀ (ns : List LNode) (ps ps' : PosMap), applyForces ns ps = some ps' →
      ∀ e ∈ ps',
        (e.1 ∈ ns.map LNode.id → inBounds e.2) ∧
        (e.1 ∉ ns.map LNode.id → e ∈ ps) := by
  intro ns
  induction ns with
  | nil =>
    intro ps ps' h e he
    simp only [applyForces, Option.some.injEq] at h
    subst h
    exact ⟨by simp, fun _ => he⟩
  | cons n rest ih =>
    intro ps ps' h e he
    simp only [applyForces] at h
    cases h1 : modifyPos ps n.id (fun p =>
        { p with x := clampQ margin (svgWidth - margin) (p.x + p.vx),
                 y := clampQ margin (svgHeight - margin) (p.y + p.vy) }) with
    | none => rw [h1] at h; exact Option.noConfusion h
    | some ps1 =>
      rw [h1] at h
      have hIH := ih ps1 ps' h e he
      constructor
      · intro hmem
        rw [List.map_cons] at hmem
        rcases List.mem_cons.mp hmem with hk | hk
        · by_cases hr : e.1 ∈ rest.map LNode.id
          · exact hIH.1 hr
          · have he1 : e ∈ ps1 := hIH.2 hr
            rcases modifyPos_mem h1 e he1 with ⟨-, p0, -, rfl⟩ | ⟨hne, -⟩
            · exact ⟨(clampQ_bounds margin_le_w _).1, (clampQ_bounds margin_le_w _).2,
                (clampQ_bounds margin_le_h _).1, (clampQ_bounds margin_le_h _).2⟩
            · exact absurd hk hne
        · exact hIH.1 hk
      · intro hmem
        rw [List.map_cons] at hmem
        have hr : e.1 ∉ rest.map LNode.id := fun hr2 =>
          hmem (List.mem_cons_of_mem _ hr2)
        have he1 : e ∈ ps1 := hIH.2 hr
        rcases modifyPos_mem h1 e he1 with ⟨hk, -⟩ | ⟨-, hp⟩
        · exact absurd (by rw [hk]; exact List.mem_cons_self _ _) hmem
        · exact hp

end Layout

namespace Layout

theorem resetForces_fst :
    ∀ (ns : List LNode) (ps ps' : PosMap), resetForces ns ps = some ps' →
      ps'.map Prod.fst = ps.map Prod.fst := by
  intro ns
  induction ns with
  | nil =>
    intro ps ps' h
    simp only [resetForces, Option.some.injEq] at h
    rw [h]
  | cons n rest ih =>
    intro ps ps' h
    simp only [resetForces] at h
    cases h1 : modifyPos ps n.id (fun p => { p with vx := 0, vy := 0 }) with
    | none => rw [h1] at h; exact Option.noConfusion h
    | some ps1 =>
      rw [h1] at h
      rw [ih ps1 ps' h, modifyPos_fst h1]

theorem repelPair_fst {sqrtQ : ℚ → ℚ} {alpha : ℚ} {ps : PosMap} {a b : LNode}
    {ps' : PosMap} (h : repelPair sqrtQ alpha ps a b = some ps') :
    ps'.map Prod.fst = ps.map Prod.fst := by
  unfold repelPair at h
  split at h
  · cases hla : lookupPos ps a.id with
    | none => rw [hla] at h; exact Option.noConfusion h
    | some pa =>
      cases hlb : lookupPos ps b.id with
      | none => rw [hla, hlb] at h; exact Option.noConfusion h
      | some pb =>
        rw [hla, hlb] at h
        exact modifyPos_fst h
  · injection h with h
    rw [h]

theorem repelInner_fst {sqrtQ : ℚ → ℚ} {alpha : ℚ} {a : LNode} :
    ∀ (bs : List LNode) (ps ps' : PosMap),
      repelInner sqrtQ alpha a bs ps = some ps' →
      ps'.map Prod.fst = ps.map Prod.fst := by
  intro bs
  induction bs with
  | nil =>
    intro ps ps' h
    simp only [repelInner, Option.some.injEq] at h
    rw [h]
  | cons b rest ih =>
    intro ps ps' h
    simp only [repelInner] at h
    cases h1 : repelPair sqrtQ alpha ps a b with
    | none => rw [h1] at h; exact Option.noConfusion h
    | some ps1 =>
      rw [h1] at h
      rw [ih ps1 ps' h, repelPair_fst h1]

theorem repulsionStep_fst {sqrtQ : ℚ → ℚ} {alpha : ℚ} {allNodes : List LNode} :
    ∀ (as0 : List LNode) (ps ps' : PosMap),
      repulsionStep sqrtQ alpha allNodes as0 ps = some ps' →
      ps'.map Prod.fst = ps.map Prod.fst := by
  intro as0
  induction as0 with
  | nil =>
    intro ps ps' h
    simp only [repulsionStep, Option.some.injEq] at h
    rw [h]
  | cons a rest ih =>
    intro ps ps' h
    simp only [repulsionStep] at h
    cases h1 : repelInner sqrtQ alpha a allNodes ps with
    | none => rw [h1] at h; exact Option.noConfusion h
    | some ps1 =>
      rw [h1] at h
      rw [ih ps1 ps' h, repelInner_fst allNodes ps ps1 h1]

theorem attractLink_fst {sqrtQ : ℚ → ℚ} {alpha : ℚ} {ps : PosMap} {l : LLink}
    {ps' : PosMap} (h : attractLink sqrtQ alpha ps l = some ps') :
    ps'.map Prod.fst = ps.map Prod.fst := by
  unfold attractLink at h
  cases hlt : lookupPos ps l.target with
  | none => rw [hlt] at h; exact Option.noConfusion h
  | some pt =>
    cases hls : lookupPos ps l.source with
    | none => rw [hlt, hls] at h; exact Option.noConfusion h
    | some psrc =>
      simp only [hlt, hls] at h
      split at h
      · exact Option.noConfusion h
      · rename_i ps1 h1
        rw [modifyPos_fst h, modifyPos_fst h1]

theorem attractionStep_fst {sqrtQ : ℚ → ℚ} {alpha : ℚ} :
    ∀ (ls : List LLink) (ps ps' : PosMap),
      attractionStep sqrtQ alpha ls ps = some ps' →
      ps'.map Prod.fst = ps.map Prod.fst := by
  intro ls
  induction ls with
  | nil =>
    intro ps ps' h
    simp only [attractionStep, Option.some.injEq] at h
    rw [h]
  | cons l rest ih =>
    intro ps ps' h
    simp only [attractionStep] at h
    cases h1 : attractLink sqrtQ alpha ps l with
    | none => rw [h1] at h; exact Option.noConfusion h
    | some ps1 =>
      rw [h1] at h
      rw [ih ps1 ps' h, attractLink_fst h1]

theorem applyForces_fst :
    ∀ (ns : List LNode) (ps ps' : PosMap), applyForces ns ps = some ps' →
      ps'.map Prod.fst = ps.map Prod.fst := by
  intro ns
  induction ns with
  | nil =>
    intro ps ps' h
    simp only [applyForces, Option.some.injEq] at h
    rw [h]
  | cons n rest ih =>
    intro ps ps' h
    simp only [applyForces] at h
    cases h1 : modifyPos ps n.id (fun p =>
        { p with x := clampQ margin (svgWidth - margin) (p.x + p.vx),
                 y := clampQ margin (svgHeight - margin) (p.y + p.vy) }) with
    | none => rw [h1] at h; exact Option.noConfusion h
    | some ps1 =>
      rw [h1] at h
      rw [ih ps1 ps' h, modifyPos_fst h1]

theorem forceIteration_decomp {sqrtQ : ℚ → ℚ} {nodes : List LNode}
    {links : List LLink} {i : Nat} {ps ps' : PosMap}
    (h : forceIteration sqrtQ nodes links i ps = some ps') :
    ∃ ps3, applyForces nodes ps3 = some ps' := by
  simp only [forceIteration] at h
  split at h
  · exact Option.noConfusion h
  · split at h
    · exact Option.noConfusion h
    · split at h
      · exact Option.noConfusion h
      · rename_i ps3 h3
        exact ⟨ps3, h⟩

theorem forceIteration_fst {sqrtQ : ℚ → ℚ} {nodes : List LNode}
    {links : List LLink} {i : Nat} {ps ps' : PosMap}
    (h : forceIteration sqrtQ nodes links i ps = some ps') :
    ps'.map Prod.fst = ps.map Prod.fst := by
  simp only [forceIteration] at h
  split at h
  · exact Option.noConfusion h
  · rename_i ps1 h1
    split at h
    · exact Option.noConfusion h
    · rename_i ps2 h2
      split at h
      · exact Option.noConfusion h
      · rename_i ps3 h3
        rw [applyForces_fst nodes ps3 ps' h, attractionStep_fst links ps2 ps3 h3,
          repulsionStep_fst nodes ps1 ps2 h2, resetForces_fst nodes ps ps1 h1]

theorem iterate_fst {sqrtQ : ℚ → ℚ} {nodes : List LNode} {links : List LLink} :
    ∀ (l : List Nat) (ps ps' : PosMap),
      iterate sqrtQ nodes links l ps = some ps' →
      ps'.map Prod.fst = ps.map Prod.fst := by
  intro l
  induction l with
  | nil =>
    intro ps ps' h
    simp only [iterate, Option.some.injEq] at h
    rw [h]
  | cons i rest ih =>
    intro ps ps' h
    simp only [iterate] at h
    cases h1 : forceIteration sqrtQ nodes links i ps with
    | none => rw [h1] at h; exact Option.noConfusion h
    | some ps1 =>
      rw [h1] at h
      rw [ih ps1 ps' h, forceIteration_fst h1]

theorem iterate_last {sqrtQ : ℚ → ℚ} {nodes : List LNode} {links : List LLink} :
    ∀ (l : List Nat) (ps ps' : PosMap), l ≠ [] →
      iterate sqrtQ nodes links l ps = some ps' →
      ∃ i ps0, forceIteration sqrtQ nodes links i ps0 = some ps' := by
  intro l
  induction l with
  | nil => intro ps ps' h; exact absurd rfl h
  | cons i rest ih =>
    intro ps ps' _ h
    simp only [iterate] at h
    cases h1 : forceIteration sqrtQ nodes links i ps with
    | none => rw [h1] at h; exact Option.noConfusion h
    | some ps1 =>
      rw [h1] at h
      cases rest with
      | nil =>
        simp only [iterate, Option.some.injEq] at h
        subst h
        exact ⟨i, ps, h1⟩
      | cons j rest2 =>
        exact ih ps1 ps' (by simp) h

theorem initPositions_fst (rnd : Nat → ℚ) (nodes : List LNode) :
    ∀ e ∈ initPositions rnd nodes, e.1 ∈ nodes.map LNode.id := by
  unfold initPositions
  suffices h : ∀ (l : List (Nat × LNode)) (acc : PosMap),
      (∀ x ∈ l, x.2 ∈ nodes) → (∀ e ∈ acc, e.1 ∈ nodes.map LNode.id) →
      ∀ e ∈ l.foldl (fun ps e =>
        updatePos ps e.2.id
          { x := margin + rnd (2 * e.1) * (svgWidth - 2 * margin),
            y := margin + rnd (2 * e.1 + 1) * (svgHeight - 2 * margin),
            vx := 0, vy := 0 }) acc, e.1 ∈ nodes.map LNode.id by
    apply h nodes.enum []
    · intro x hx
      have := List.enum_map_snd nodes
      rw [← this]
      exact List.mem_map.mpr ⟨x, hx, rfl⟩
    · simp
  intro l
  induction l with
  | nil =>
    intro acc _ hacc e he
    exact hacc e he
  | cons x rest ih =>
    intro acc hl hacc e he
    refine ih _ (fun y hy => hl y (List.mem_cons_of_mem x hy)) ?_ e he
    intro e0 he0
    rcases updatePos_mem e0 he0 with h | h
    · rw [h]
      exact List.mem_map.mpr ⟨x.2, hl x (List.mem_cons_self x rest), rfl⟩
    · exact hacc e0 h

end Layout

namespace Layout

/-- A `Math.sqrt` stand-in that is never interrogated in the single-node
witness run (no distinct pair, no link). -/
def sqrt0 : ℚ → ℚ := fun _ => 0

/-- A `Math.random` stream returning 0, placing every node at the
margin corner. -/
def rnd0 : Nat → ℚ := fun _ => 0

/-- The stable position map of the single-node witness run. -/
def psA : PosMap := [("a", ⟨40, 40, 0, 0⟩)]

/-- With one node and no links every iteration is the identity: the
node sits at `(40, 40)`, forces reset to zero, the single repulsion
pair `("a","a")` is skipped, and the clamp returns the same corner. -/
theorem forceIteration_single_fixed (i : Nat) :
    forceIteration sqrt0 [⟨"a"⟩] [] i psA = some psA := by
  with_unfolding_all rfl

theorem iterate_single_fixed :
    ∀ l : List Nat, iterate sqrt0 [⟨"a"⟩] [] l psA = some psA := by
  intro l
  induction l with
  | nil => rfl
  | cons i rest ih =>
    simp only [iterate, forceIteration_single_fixed i]
    exact ih

theorem calculateForceLayout_single :
    calculateForceLayout sqrt0 rnd0 [⟨"a"⟩] [] = some psA := by
  unfold calculateForceLayout
  rw [show initPositions rnd0 [⟨"a"⟩] = psA from by with_unfolding_all rfl]
  exact iterate_single_fixed (List.range 100)

/-- `Math.sqrt` evaluated faithfully at the one square the C7
counterexample reaches: `sqrt (1/4) = 1/2`. -/
def sqrtEx : ℚ → ℚ := fun q => if q = 1 / 4 then 1 / 2 else 0

/-- Two positions at Euclidean distance `1/2`. -/
def pa0 : PPos := ⟨0, 0, 0, 0⟩

/-- The second position of the C7 counterexample pair. -/
def pb0 : PPos := ⟨1 / 2, 0, 0, 0⟩

end Layout

/-- C1: whatever `Math.sqrt` computes, whatever the random initial
placement, every entry of the returned position map lies inside
`[margin, dimension − margin]` on both axes, and a single relaxation
iteration re-establishes that bound for every tracked node — the final
clamp is an invariant of the step. -/
theorem C1_layout_bounded (sqrtQ : ℚ → ℚ) (rnd : Nat → ℚ)
    (nodes : List LNode) (links : List LLink) (res : Layout.PosMap)
    (hne : nodes ≠ [])
    (h : Layout.calculateForceLayout sqrtQ rnd nodes links = some res) :
    (∀ e ∈ res, Layout.inBounds e.2) ∧
    (∀ (i : Nat) (ps ps' : Layout.PosMap),
       Layout.forceIteration sqrtQ nodes links i ps = some ps' →
       ∀ e ∈ ps', e.1 ∈ nodes.map LNode.id → Layout.inBounds e.2) := by
  have hstep : ∀ (i : Nat) (ps ps' : Layout.PosMap),
      Layout.forceIteration sqrtQ nodes links i ps = some ps' →
      ∀ e ∈ ps', e.1 ∈ nodes.map LNode.id → Layout.inBounds e.2 := by
    intro i ps ps' hit e he hid
    obtain ⟨ps3, hap⟩ := Layout.forceIteration_decomp hit
    exact (Layout.applyForces_spec nodes ps3 ps' hap e he).1 hid
  refine ⟨?_, hstep⟩
  have hkeys : res.map Prod.fst = (Layout.initPositions rnd nodes).map Prod.fst :=
    Layout.iterate_fst (List.range 100) _ res h
  have hsub : ∀ e ∈ res, e.1 ∈ nodes.map LNode.id := by
    intro e he
    have hm : e.1 ∈ res.map Prod.fst := List.mem_map.mpr ⟨e, he, rfl⟩
    rw [hkeys] at hm
    rcases List.mem_map.mp hm with ⟨e0, he0, hf⟩
    rw [← hf]
    exact Layout.initPositions_fst rnd nodes e0 he0
  obtain ⟨i, ps0, hit⟩ := Layout.iterate_last (List.range 100) _ res
    (by simp) h
  intro e he
  exact hstep i ps0 res hit e he (hsub e he)

/-- Witness for C1: the single-node run (zero randomness) returns the
corner position `(40, 40)`, which satisfies the bounds. -/
theorem C1_layout_bounded_witness :
    Layout.inBounds (⟨40, 40, 0, 0⟩ : PPos) :=
  (C1_layout_bounded Layout.sqrt0 Layout.rnd0 [⟨"a"⟩] [] Layout.psA
    (by simp) Layout.calculateForceLayout_single).1
    ("a", ⟨40, 40, 0, 0⟩) (List.mem_singleton.mpr rfl)

/-- C6 (code bug per the spec's stated intent): an edge whose target id
is absent from the node list is **not** skipped — the attraction phase
reads `positions[link.target].x` of `undefined` and the whole layout
throws a `TypeError` in its first iteration, here modelled as `none`. -/
theorem C6_dangling_edge_throws :
    Layout.calculateForceLayout Layout.sqrt0 Layout.rnd0
      [⟨"a"⟩] [⟨"a", "ghost"⟩] = none := by
  with_unfolding_all rfl

/-- Counterexample to C7 as stated: with positions at Euclidean
distance `1/2` (and `sqrtEx` agreeing with the true square root there:
`(1/2)·(1/2)` equals the squared displacement and `1/2 ≥ 0`), the
repulsion distance stays `1/2` — it is not treated as `1`, and the
divisor `distance²` is `1/4 < 1`. -/
theorem C7_counterexample :
    (Layout.sqrtEx (Layout.sqDist Layout.pa0 Layout.pb0) = 1 / 2 ∧
     (1 / 2 : ℚ) * (1 / 2) = Layout.sqDist Layout.pa0 Layout.pb0 ∧
     (0 : ℚ) ≤ 1 / 2) ∧
    Layout.repelDistance Layout.sqrtEx Layout.pa0 Layout.pb0 = 1 / 2 ∧
    Layout.repelDistance Layout.sqrtEx Layout.pa0 Layout.pb0 ≠ 1 ∧
    Layout.repelDistance Layout.sqrtEx Layout.pa0 Layout.pb0 *
      Layout.repelDistance Layout.sqrtEx Layout.pa0 Layout.pb0 < 1 := by
  with_unfolding_all decide

/-- C7 amended: the `|| 1` guard replaces the distance by `1` exactly
when the square root evaluates to `0` (coincident positions); it does
not clamp distances below `1`.  Consequently the repulsion divisor
`distance²` is never `0` — but it can be smaller than `1`. -/
theorem C7_distance_zero_guard (sqrtQ : ℚ → ℚ) (pa pb : PPos) :
    Layout.repelDistance sqrtQ pa pb ≠ 0 ∧
    Layout.repelDistance sqrtQ pa pb * Layout.repelDistance sqrtQ pa pb ≠ 0 ∧
    (sqrtQ (Layout.sqDist pa pb) = 0 →
      Layout.repelDistance sqrtQ pa pb = 1) ∧
    (sqrtQ (Layout.sqDist pa pb) ≠ 0 →
      Layout.repelDistance sqrtQ pa pb = sqrtQ (Layout.sqDist pa pb)) := by
  unfold Layout.repelDistance Layout.jsOrOne
  by_cases h : sqrtQ (Layout.sqDist pa pb) = 0
  · rw [if_pos h]
    exact ⟨one_ne_zero, by norm_num, fun _ => rfl, fun hn => absurd h hn⟩
  · rw [if_neg h]
    exact ⟨h, mul_ne_zero h h, fun h0 => absurd h0 h, fun _ => rfl⟩

/-- Witness for C7's amended theorem at the counterexample pair: the
distance is nonzero, and with a nonzero square root it is passed
through unclamped. -/
theorem C7_distance_zero_guard_witness :
    Layout.repelDistance Layout.sqrtEx Layout.pa0 Layout.pb0 ≠ 0 ∧
    Layout.repelDistance Layout.sqrtEx Layout.pa0 Layout.pb0 =
      Layout.sqrtEx (Layout.sqDist Layout.pa0 Layout.pb0) :=
  ⟨(C7_distance_zero_guard Layout.sqrtEx Layout.pa0 Layout.pb0).1,
   (C7_distance_zero_guard Layout.sqrtEx Layout.pa0 Layout.pb0).2.2.2
     (by with_unfolding_all decide)⟩
